import Mathlib

/-!
# uvc-gadget: the pipe-fed MJPEG video source (lib/mjpeg-source.c)

A shallow embedding of the frame scanner and of the capability functions of
the MJPEG source, followed by theorems about them.

Conventions of the embedding:

* a byte is a natural number; the code masks every byte it compares with
  0xFF, which is rendered as a remainder modulo 256;
* a block of memory is a function from the byte offset to the byte;
* the C int fields count, data and jpegIndex are natural numbers: they start
  at zero and are only incremented, reset to zero, or set to leftToCopy,
  which is a difference of a larger and a smaller index;
* a pointer is its address, with 0 for NULL; the block that jpegBuffer points
  to is the field jpegMem;
* a FILE is the list of the outcomes of the fread calls still to come.
-/

namespace UvcGadget

/-! ## Constants -/

/-- The chunk size of one fread: const int BUFFER_SIZE = 256. -/
def BUFFER_SIZE : Nat := 256

/-- The size of the block that setUp allocates for the scan buffer,
malloc(2 * 1024 * 1024). -/
def SCAN_CAPACITY : Nat := 2 * 1024 * 1024

/-- The errno value EINVAL of errno.h. -/
def EINVAL : Int := 22

/-- The macro v4l2_fourcc of linux/videodev2.h:
a | (b << 8) | (c << 16) | (d << 24) on 32-bit unsigned values. -/
def v4l2_fourcc (a b c d : Char) : Nat :=
  a.toNat + b.toNat * 2 ^ 8 + c.toNat * 2 ^ 16 + d.toNat * 2 ^ 24

/-! ## Data model -/

/-- A block of bytes addressed by offset. -/
abbrev Mem := Nat → Nat

/-- The stream behind a FILE pointer: the bytes that each coming call
fread(ptr, BUFFER_SIZE, 1, fd) obtains. A call that obtains BUFFER_SIZE bytes
returns 1; a call that obtains fewer (no data, end of file) stores what it
obtained and returns 0; once the list is exhausted every call obtains
nothing. -/
abbrev FILE := List (List Nat)

/-- The lines the source prints on standard output. -/
inductive Msg where
  | setUpLine
  | openFailed
  | unsupportedFourcc
  | fps (count data : Nat)
  deriving DecidableEq, Repr

/-- Modelled from the spec: struct video_source of video-source.h, which is
not among the sources; the capability table reference and the events sink that
mjpeg_video_source_create and mjpeg_video_source_init store. -/
structure video_source where
  ops : Option String
  events : Nat

/-- Modelled from the spec: struct v4l2_pix_format of linux/videodev2.h; the
code reads only the four-character code. -/
structure v4l2_pix_format where
  pixelformat : Nat

/-- Modelled from the spec: struct video_buffer of video-buffers.h, which is
not among the sources; the caller-owned destination block and its reported
length. -/
structure video_buffer where
  mem : Mem
  bytesused : Nat

/-- The struct mjpeg_source. -/
structure mjpeg_source where
  src : video_source
  mjpegPipePath : String
  mjpegPipeSignalPath : String
  jpegBuffer : Nat
  jpegMem : Mem
  fd : Option FILE
  count : Nat
  data : Nat
  jpegIndex : Nat
  start : Nat
  tmp : Nat
  framerate : Nat
  streaming : Bool

/-- What the operating system answers during setUp and what lies in memory
around the source object. -/
structure Env where
  bufAddr : Nat
  bufInit : Mem
  startAddr : Nat
  tmpAddr : Nat
  signalWritable : Bool
  pipe : Option FILE
  objTail : Mem

/-- The accesses that end the process: the calls on a null FILE pointer, the
store of a chunk past the end of the scan buffer, and the copy of line 180
reading past the memory that can be read from the address it starts at, or
writing past the destination. -/
inductive Fault where
  | fcloseNull
  | freadNull
  | storePastBuffer
  | copyOutOfBounds
  deriving DecidableEq, Repr

/-- What one call of readFrame leaves: the source, the destination buffer, the
lines printed, and which return was taken (true for the return after a frame
was copied out, false for the return after a read of zero items). -/
structure ReadResult where
  src : mjpeg_source
  buf : video_buffer
  out : List Msg
  produced : Bool

/-! ## Memory operations -/

/-- Store the bytes bs at offset pos of the block m. -/
def writeBytes (m : Mem) (pos : Nat) (bs : List Nat) : Mem :=
  fun j => if pos ≤ j ∧ j < pos + bs.length then bs.getD (j - pos) 0 else m j

/-- The call memcpy(dst, src, n) for two distinct blocks. -/
def memcpy (dst src : Mem) (n : Nat) : Mem :=
  fun j => if j < n then src j else dst j

/-- The call memcpy(&m[0], &m[from], n) inside one block, as the ascending
byte-by-byte copy: byte k is stored after the bytes below k. -/
def memcpyDown (m : Mem) (from_ : Nat) : Nat → Mem
  | 0 => m
  | n + 1 =>
    let m1 := memcpyDown m from_ n
    fun j => if j = n then m1 (from_ + n) else m1 j

/-- The bytes found at the address &src->jpegBuffer, the address of the
pointer field itself: the eight bytes of the pointer, least significant
first, and after them what the environment holds there (the following fields
and whatever comes after the object). -/
def fieldBytes (s : mjpeg_source) (objTail : Mem) : Mem :=
  fun j => if j < 8 then s.jpegBuffer / 256 ^ j % 256 else objTail j

/-! ## The scanner -/

/-- The for loop of findEof: fuel is the number of indices left, i the
current index, firstChar the masked byte before it. -/
def findEofLoop (buffer : Mem) (firstChar i : Nat) : Nat → Nat
  | 0 => 0
  | fuel + 1 =>
    let secondChar := buffer i % 256
    if firstChar = 0xFF ∧ secondChar = 0xD9 then i
    else findEofLoop buffer secondChar (i + 1) fuel

/-- The function findEof(buffer, length, offset). -/
def findEof (buffer : Mem) (length offset : Nat) : Nat :=
  findEofLoop buffer (buffer offset % 256) (offset + 1) (length - (offset + 1))

/-- The function stats: the frame counter and the report every 50 frames. The
two timestamps that gettimeofday stores and the rates computed from them are
wall-clock values and are left out; the report keeps the two counters it is
computed from. -/
def stats (s : mjpeg_source) : mjpeg_source × List Msg :=
  let s1 := { s with count := s.count + 1 }
  if s1.count % 50 = 0 then
    ({ s1 with count := 0, data := 0 }, [Msg.fps s1.count s1.data])
  else
    (s1, [])

/-- The offset at which readFrame starts the scan. -/
def scanStart (jpegIndex : Nat) : Nat :=
  if jpegIndex < 10 then 0 else jpegIndex - 10

/-- The branch of readFrame taken when eof is not zero (lines 180 to 190): the
values it computes. Whether the copy of line 180 stays inside what can be read
and written is the test of readFrameChecked. -/
def extractFrame (objTail : Mem) (s : mjpeg_source) (buf : video_buffer) (eof : Nat) :
    ReadResult :=
  let buf1 : video_buffer :=
    { mem := memcpy buf.mem (fieldBytes s objTail) (eof + 1), bytesused := eof + 1 }
  let s1 := { s with data := s.data + (eof + 1) }
  let leftToCopy := (s1.jpegIndex + BUFFER_SIZE) - (eof + 1)
  let s2 := { s1 with jpegMem := memcpyDown s1.jpegMem (eof + 1) leftToCopy,
                      jpegIndex := leftToCopy }
  let r := stats s2
  { src := r.1, buf := buf1, out := r.2, produced := true }

/-- The while loop of readFrame over the outcomes of the coming fread calls:
the values it computes, in a block without an end. Whether the stores stay
inside the SCAN_CAPACITY bytes allocated is the test of readFrameChecked. -/
def readFrameLoop (objTail : Mem) (s : mjpeg_source) (buf : video_buffer) :
    FILE → ReadResult
  | [] => { src := { s with fd := some [] }, buf := buf, out := [], produced := false }
  | r :: rest =>
    let s1 := { s with jpegMem := writeBytes s.jpegMem s.jpegIndex (r.take BUFFER_SIZE),
                       fd := some rest }
    if r.length < BUFFER_SIZE then
      { src := s1, buf := buf, out := [], produced := false }
    else
      let eof := findEof s1.jpegMem (s1.jpegIndex + BUFFER_SIZE) (scanStart s1.jpegIndex)
      if eof ≠ 0 then
        extractFrame objTail s1 buf eof
      else
        readFrameLoop objTail { s1 with jpegIndex := s1.jpegIndex + BUFFER_SIZE } buf rest

/-- The function readFrame; fread on a null FILE pointer is a fault. -/
def readFrame (objTail : Mem) (s : mjpeg_source) (buf : video_buffer) :
    Except Fault ReadResult :=
  match s.fd with
  | none => Except.error Fault.freadNull
  | some fp => Except.ok (readFrameLoop objTail s buf fp)

/-- The function setUp; fclose on the null result of a failed fopen is a
fault. The allocations are taken to succeed. -/
def setUp (env : Env) (s : mjpeg_source) : Except Fault (mjpeg_source × List Msg) :=
  let s1 := { s with jpegBuffer := env.bufAddr, jpegMem := env.bufInit,
                     start := env.startAddr, tmp := env.tmpAddr }
  if env.signalWritable then
    let s2 := { s1 with fd := env.pipe }
    match s2.fd with
    | none => Except.ok (s2, [Msg.setUpLine, Msg.openFailed])
    | some _ => Except.ok (s2, [Msg.setUpLine])
  else
    Except.error Fault.fcloseNull

/-- The function mjpeg_source_fill_buffer. -/
def mjpeg_source_fill_buffer (env : Env) (s : mjpeg_source) (buf : video_buffer) :
    Except Fault ReadResult :=
  match s.fd with
  | none =>
    match setUp env s with
    | Except.error f => Except.error f
    | Except.ok (s1, out1) =>
      match readFrame env.objTail s1 buf with
      | Except.error f => Except.error f
      | Except.ok r => Except.ok { r with out := out1 ++ r.out }
  | some _ => readFrame env.objTail s buf

/-- The while loop of readFrame with its two unchecked memory accesses made
explicit. The fread of line 170 stores what it obtains at the cursor of the
block of SCAN_CAPACITY bytes that setUp allocates: the call faults when the
bytes do not fit. The memcpy of line 180 copies eof + 1 bytes from the address
of the field jpegBuffer to buf->mem: the call faults when that is more than
copyLimit, the number of bytes that this copy can move, which is what can be
read from that address on (the rest of the object and what is mapped after
it) and no more than the destination holds. The scan of line 175 and the copy
of line 185 stay below the cursor plus 256, inside the block when the store
was. In every other respect the loop is readFrameLoop, which gives the values
computed. -/
def readFrameChecked (copyLimit : Nat) (objTail : Mem) (s : mjpeg_source) (buf : video_buffer) :
    FILE → Except Fault ReadResult
  | [] => Except.ok
      { src := { s with fd := some [] }, buf := buf, out := [], produced := false }
  | r :: rest =>
    if SCAN_CAPACITY < s.jpegIndex + (r.take BUFFER_SIZE).length then
      Except.error Fault.storePastBuffer
    else
      let s1 := { s with jpegMem := writeBytes s.jpegMem s.jpegIndex (r.take BUFFER_SIZE),
                         fd := some rest }
      if r.length < BUFFER_SIZE then
        Except.ok { src := s1, buf := buf, out := [], produced := false }
      else
        let eof := findEof s1.jpegMem (s1.jpegIndex + BUFFER_SIZE) (scanStart s1.jpegIndex)
        if eof ≠ 0 then
          if copyLimit < eof + 1 then
            Except.error Fault.copyOutOfBounds
          else
            Except.ok (extractFrame objTail s1 buf eof)
        else
          readFrameChecked copyLimit objTail
            { s1 with jpegIndex := s1.jpegIndex + BUFFER_SIZE } buf rest

/-- The function mjpeg_source_fill_buffer with the loop of readFrameChecked:
the call with every fault it can end in. -/
def mjpeg_source_fill_buffer_checked (copyLimit : Nat) (env : Env) (s : mjpeg_source)
    (buf : video_buffer) : Except Fault ReadResult :=
  match s.fd with
  | none =>
    match setUp env s with
    | Except.error f => Except.error f
    | Except.ok (s1, out1) =>
      match s1.fd with
      | none => Except.error Fault.freadNull
      | some fp =>
        match readFrameChecked copyLimit env.objTail s1 buf fp with
        | Except.error f => Except.error f
        | Except.ok r => Except.ok { r with out := out1 ++ r.out }
  | some fp => readFrameChecked copyLimit env.objTail s buf fp

/-! ## The capability functions -/

/-- The function mjpeg_source_set_format; the source is not used. -/
def mjpeg_source_set_format (s : mjpeg_source) (fmt : v4l2_pix_format) :
    Int × mjpeg_source × List Msg :=
  if fmt.pixelformat ≠ v4l2_fourcc 'M' 'J' 'P' 'G' then
    (-EINVAL, s, [Msg.unsupportedFourcc])
  else
    (0, s, [])

/-- The function mjpeg_video_source_create once its allocation has succeeded:
the object is zeroed, then the table and the two paths are stored. -/
def mjpeg_video_source_create (mjpegPipePath mjpegSignalPipePath : String) : mjpeg_source :=
  { src := { ops := some "mjpeg_source_ops", events := 0 }
    mjpegPipePath := mjpegPipePath
    mjpegPipeSignalPath := mjpegSignalPipePath
    jpegBuffer := 0
    jpegMem := fun _ => 0
    fd := none
    count := 0
    data := 0
    jpegIndex := 0
    start := 0
    tmp := 0
    framerate := 0
    streaming := false }

/-- The function mjpeg_source_set_frame_rate. -/
def mjpeg_source_set_frame_rate (s : mjpeg_source) (fps : Nat) : Int × mjpeg_source :=
  (0, { s with framerate := fps })

/-- The function mjpeg_source_stream_on. -/
def mjpeg_source_stream_on (s : mjpeg_source) : Int × mjpeg_source :=
  (0, { s with streaming := true })

/-- The function mjpeg_source_stream_off. -/
def mjpeg_source_stream_off (s : mjpeg_source) : Int × mjpeg_source :=
  (0, { s with streaming := false })

/-- What mjpeg_source_destroy hands back to the system. -/
inductive Release where
  | freeScanBuffer (addr : Nat)
  | closeStream
  | freeStart (addr : Nat)
  | freeTmp (addr : Nat)
  | freeSource
  deriving DecidableEq, Repr

/-- The function mjpeg_source_destroy: the releases it performs, in order. Each
of the four members is released only when it is not null; the object itself
is always freed. -/
def mjpeg_source_destroy (s : mjpeg_source) : List Release :=
  (if s.jpegBuffer ≠ 0 then [Release.freeScanBuffer s.jpegBuffer] else []) ++
  (if s.fd.isSome then [Release.closeStream] else []) ++
  (if s.start ≠ 0 then [Release.freeStart s.start] else []) ++
  (if s.tmp ≠ 0 then [Release.freeTmp s.tmp] else []) ++
  [Release.freeSource]

/-- The function mjpeg_video_source_init: the events sink is stored. -/
def mjpeg_video_source_init (s : mjpeg_source) (events : Nat) : mjpeg_source :=
  { s with src := { s.src with events := events } }

/-! ## Vocabulary of the statements -/

/-- The frame terminator ends at index i of the block m: byte i - 1 is 0xFF
and byte i is 0xD9, both taken modulo 256. -/
def eoiAt (m : Mem) (i : Nat) : Prop :=
  m (i - 1) % 256 = 0xFF ∧ m i % 256 = 0xD9

instance (m : Mem) (i : Nat) : Decidable (eoiAt m i) := by
  unfold eoiAt; infer_instance

/-- The bytes of a list as a block: byte j of the list, 0 past its end. -/
def listMem (l : List Nat) : Mem := fun j => l.getD j 0

/-- A frame whose only terminator is its last two bytes. -/
def wellFormedFrame (f : List Nat) : Prop :=
  2 ≤ f.length ∧ eoiAt (listMem f) (f.length - 1) ∧
    ∀ i, i < f.length - 1 → ¬ eoiAt (listMem f) i

instance (f : List Nat) : Decidable (wellFormedFrame f) := by
  unfold wellFormedFrame; infer_instance

/-- What readFrame does to the source for each produced frame, for a list of
frame lengths: the length is added to the byte counter (line 183), then stats
is called (line 189). The lines printed are collected. -/
def framesDone : List Nat → mjpeg_source → mjpeg_source × List Msg
  | [], s => (s, [])
  | len :: lens, s =>
    let r := stats { s with data := s.data + len }
    let r2 := framesDone lens r.1
    (r2.1, r.2 ++ r2.2)

/-- Consecutive calls of mjpeg_source_fill_buffer, with their faults, each on
the source and the destination buffer the call before left; the results in
order. -/
def fillMany (copyLimit : Nat) (env : Env) :
    Nat → mjpeg_source → video_buffer → Except Fault (List ReadResult)
  | 0, _, _ => Except.ok []
  | n + 1, s, buf =>
    match mjpeg_source_fill_buffer_checked copyLimit env s buf with
    | Except.error f => Except.error f
    | Except.ok r =>
      match fillMany copyLimit env n r.src r.buf with
      | Except.error f => Except.error f
      | Except.ok rs => Except.ok (r :: rs)

/-- What the caller sees of n consecutive calls of mjpeg_source_fill_buffer:
for each call whether a frame was produced and the reported length in the
destination buffer after it; none when a call faults. -/
def fillReports (copyLimit : Nat) (env : Env) (n : Nat) (s : mjpeg_source)
    (buf : video_buffer) : Option (List (Bool × Nat)) :=
  match fillMany copyLimit env n s buf with
  | Except.ok rs => some (rs.map fun r => (r.produced, r.buf.bytesused))
  | Except.error _ => none

/-! ## Concrete inputs -/

/-- A destination buffer of zero bytes with no reported length. -/
def emptyBuffer : video_buffer := { mem := fun _ => 0, bytesused := 0 }

/-- The source right after mjpeg_video_source_create. -/
def freshSource : mjpeg_source := mjpeg_video_source_create "/tmp/mjpeg" "/tmp/mjpeg.signal"

/-- An environment in which setUp succeeds: the scan buffer is allocated at a
16-byte aligned address and holds zero bytes, and the pipe delivers fp. -/
def envWith (fp : FILE) : Env :=
  { bufAddr := 0x7f3c5a200010, bufInit := fun _ => 0, startAddr := 0x55d0c0a2b2a0,
    tmpAddr := 0x55d0c0a2b2c0, signalWritable := true, pipe := some fp,
    objTail := fun _ => 0 }

/-- A frame of n + 2 bytes: n zero bytes and the terminator. -/
def zeroFrame (n : Nat) : List Nat := List.replicate n 0 ++ [0xFF, 0xD9]

/-- A chunk of 256 bytes that starts with a four-byte image, the start marker
0xFF 0xD8 followed by the terminator 0xFF 0xD9, and continues with zeros. -/
def tinyImageChunk : List Nat := [0xFF, 0xD8, 0xFF, 0xD9] ++ List.replicate 252 0

/-- A chunk of 256 zero bytes. -/
def zeroChunk : List Nat := List.replicate 256 0

/-- A source that has been set up, with an empty scan buffer of zero bytes. -/
def readySource : mjpeg_source :=
  { freshSource with jpegBuffer := 0x7f3c5a200010, fd := some [] }

/-- The 300 extra bytes of the example, all 7. -/
def extra300 : List Nat := List.replicate 300 7

/-- The first twenty chunks of the example, a frame of 5000 bytes followed by
300 extra bytes: nineteen chunks of zeros, and the chunk that holds the end of
the frame and the first 120 extra bytes. -/
def full5120 : FILE :=
  List.replicate 19 zeroChunk ++ [List.replicate 134 0 ++ [0xFF, 0xD9] ++ List.replicate 120 7]

/-- The last 180 extra bytes of the example, which do not fill a chunk. -/
def tail180 : List Nat := List.replicate 180 7

/-- The stream of the example as the reads obtain it. -/
def channel5300 : FILE := full5120 ++ [tail180]

/-- A stream of 8192 chunks of zeros, then a read that obtains nothing, then
one more chunk of zeros. -/
def channelOverflow : FILE := List.replicate 8192 zeroChunk ++ [[], zeroChunk]

/-- Three frames of 100, 100 and 312 bytes. -/
def shortFrames : List (List Nat) := [zeroFrame 98, zeroFrame 98, zeroFrame 310]

/-- The 512 bytes of the three frames as two chunks of 256 bytes. -/
def channel512 : FILE := [shortFrames.flatten.take 256, shortFrames.flatten.drop 256]

/-- Two frames of 256 and 512 bytes. -/
def longFrames : List (List Nat) := [zeroFrame 254, zeroFrame 510]

/-- The 768 bytes of the two frames as three chunks of 256 bytes. -/
def channel768 : FILE :=
  [zeroFrame 254, List.replicate 256 0, List.replicate 254 0 ++ [0xFF, 0xD9]]

/-- The second chunk of the three short frames. -/
def chunk512b : List Nat := shortFrames.flatten.drop 256

/-- The first n bytes of a block, as a list. -/
def memSlice (m : Mem) (n : Nat) : List Nat := (List.range n).map m

/-- The staged bytes of a source: the bytes of the scan buffer below the
cursor. -/
def staged (s : mjpeg_source) : List Nat := memSlice s.jpegMem s.jpegIndex

/-- The loop of readFrame once more, followed for what it cuts and what it
stores instead of for its result: the scan-buffer bytes from 0 to eof at the
extraction (none when the call returns without a frame), and the bytes of the
chunks of 256 bytes that the call has stored, in order. The states and the
tests are those of readFrameLoop. -/
def readFrameTrace (s : mjpeg_source) : FILE → Option (List Nat) × List Nat
  | [] => (none, [])
  | r :: rest =>
    let s1 := { s with jpegMem := writeBytes s.jpegMem s.jpegIndex (r.take BUFFER_SIZE),
                       fd := some rest }
    if r.length < BUFFER_SIZE then
      (none, [])
    else
      let eof := findEof s1.jpegMem (s1.jpegIndex + BUFFER_SIZE) (scanStart s1.jpegIndex)
      if eof ≠ 0 then
        (some (memSlice s1.jpegMem (eof + 1)), r.take BUFFER_SIZE)
      else
        let t := readFrameTrace { s1 with jpegIndex := s1.jpegIndex + BUFFER_SIZE } rest
        (t.1, r.take BUFFER_SIZE ++ t.2)

/-- The source and the stream with which mjpeg_source_fill_buffer enters the
loop of readFrame: the source itself when its stream is open, and otherwise
the source as setUp leaves it; none when the call faults before the loop. -/
def loopEntry (env : Env) (s : mjpeg_source) : Option (mjpeg_source × FILE) :=
  match s.fd with
  | some fp => some (s, fp)
  | none =>
    match setUp env s with
    | Except.error _ => none
    | Except.ok (s1, _) =>
      match s1.fd with
      | none => none
      | some fp => some (s1, fp)

/-- The record of one call of mjpeg_source_fill_buffer: what it cut, what it
stored, and its result. -/
structure CallLog where
  cut : Option (List Nat)
  stored : List Nat
  result : ReadResult

/-- The records of n consecutive calls of mjpeg_source_fill_buffer, with their
faults; none when a call faults. -/
def fillTrace (copyLimit : Nat) (env : Env) :
    Nat → mjpeg_source → video_buffer → Option (List CallLog)
  | 0, _, _ => some []
  | n + 1, s, buf =>
    match loopEntry env s, mjpeg_source_fill_buffer_checked copyLimit env s buf with
    | some (s1, fp), Except.ok r =>
      match fillTrace copyLimit env n r.src r.buf with
      | some ls =>
        some ({ cut := (readFrameTrace s1 fp).1, stored := (readFrameTrace s1 fp).2,
                result := r } :: ls)
      | none => none
    | _, _ => none

/-- The source after the calls of a list of records, s when there is none. -/
def finalSource (s : mjpeg_source) : List CallLog → mjpeg_source
  | [] => s
  | l :: ls => finalSource l.result.src ls

/-- The slices cut by the calls of a list of records, concatenated. -/
def cutBytes (ls : List CallLog) : List Nat := (ls.map fun l => l.cut.getD []).flatten

/-- The chunks stored by the calls of a list of records, concatenated. -/
def storedBytes (ls : List CallLog) : List Nat := (ls.map fun l => l.stored).flatten

/-- The loop of readFrame once more, followed for the cursors at which it
calls fread, in order: every read of the call, the read that ends it
included, and the read that stores past the end of the scan buffer, after
which there is no other. The states and the tests are those of
readFrameChecked. -/
def readCursors (s : mjpeg_source) : FILE → List Nat
  | [] => [s.jpegIndex]
  | r :: rest =>
    if SCAN_CAPACITY < s.jpegIndex + (r.take BUFFER_SIZE).length then
      [s.jpegIndex]
    else
      let s1 := { s with jpegMem := writeBytes s.jpegMem s.jpegIndex (r.take BUFFER_SIZE),
                         fd := some rest }
      if r.length < BUFFER_SIZE then
        [s.jpegIndex]
      else
        let eof := findEof s1.jpegMem (s1.jpegIndex + BUFFER_SIZE) (scanStart s1.jpegIndex)
        if eof ≠ 0 then
          [s.jpegIndex]
        else
          s.jpegIndex :: readCursors { s1 with jpegIndex := s1.jpegIndex + BUFFER_SIZE } rest

/-- A stream of 8193 chunks of zeros. -/
def channelPastBuffer : FILE := List.replicate 8192 zeroChunk ++ [zeroChunk]

/-! ## The scan of findEof -/

theorem findEofLoop_spec (buffer : Mem) :
    ∀ (fuel i : Nat), 1 ≤ i →
      (findEofLoop buffer (buffer (i - 1) % 256) i fuel = 0 →
        ∀ k, i ≤ k → k < i + fuel → ¬ eoiAt buffer k) ∧
      (findEofLoop buffer (buffer (i - 1) % 256) i fuel ≠ 0 →
        i ≤ findEofLoop buffer (buffer (i - 1) % 256) i fuel ∧
        findEofLoop buffer (buffer (i - 1) % 256) i fuel < i + fuel ∧
        eoiAt buffer (findEofLoop buffer (buffer (i - 1) % 256) i fuel) ∧
        ∀ k, i ≤ k → k < findEofLoop buffer (buffer (i - 1) % 256) i fuel →
          ¬ eoiAt buffer k) := by
  intro fuel
  induction fuel with
  | zero =>
    intro i _
    refine ⟨fun _ k h1 h2 => by omega, fun h => absurd rfl h⟩
  | succ n ih =>
    intro i hi
    by_cases hm : buffer (i - 1) % 256 = 0xFF ∧ buffer i % 256 = 0xD9
    · have he : findEofLoop buffer (buffer (i - 1) % 256) i (n + 1) = i := by
        simp only [findEofLoop]; rw [if_pos hm]
      rw [he]
      refine ⟨fun h => by omega, fun _ => ⟨le_refl _, by omega, hm, fun k h1 h2 => by omega⟩⟩
    · have he : findEofLoop buffer (buffer (i - 1) % 256) i (n + 1)
          = findEofLoop buffer (buffer (i + 1 - 1) % 256) (i + 1) n := by
        simp only [findEofLoop]; rw [if_neg hm]; simp
      rw [he]
      obtain ⟨ih0, ih1⟩ := ih (i + 1) (by omega)
      constructor
      · intro h k h1 h2
        by_cases hk : k = i
        · subst hk; exact hm
        · exact ih0 h k (by omega) (by omega)
      · intro h
        obtain ⟨a, b, c, d⟩ := ih1 h
        refine ⟨by omega, by omega, c, ?_⟩
        intro k h1 h2
        by_cases hk : k = i
        · subst hk; exact hm
        · exact d k (by omega) h2

theorem findEof_zero {buffer : Mem} {length offset : Nat}
    (h : findEof buffer length offset = 0) :
    ∀ k, offset < k → k < length → ¬ eoiAt buffer k := by
  intro k h1 h2
  have := (findEofLoop_spec buffer (length - (offset + 1)) (offset + 1) (by omega)).1
  simp only [Nat.add_sub_cancel] at this
  exact this h k (by omega) (by omega)

theorem findEof_pos {buffer : Mem} {length offset : Nat}
    (h : findEof buffer length offset ≠ 0) :
    offset < findEof buffer length offset ∧ findEof buffer length offset < length ∧
    eoiAt buffer (findEof buffer length offset) ∧
    ∀ k, offset < k → k < findEof buffer length offset → ¬ eoiAt buffer k := by
  have := (findEofLoop_spec buffer (length - (offset + 1)) (offset + 1) (by omega)).2
  simp only [Nat.add_sub_cancel] at this
  obtain ⟨a, b, c, d⟩ := this h
  exact ⟨by unfold findEof; omega, by unfold findEof; omega, c,
    fun k h1 h2 => d k (by omega) h2⟩

theorem findEof_eq {buffer : Mem} {length offset t : Nat}
    (h1 : offset < t) (h2 : t < length) (h3 : eoiAt buffer t)
    (h4 : ∀ k, offset < k → k < t → ¬ eoiAt buffer k) :
    findEof buffer length offset = t := by
  by_cases h : findEof buffer length offset = 0
  · exact absurd h3 (findEof_zero h t h1 h2)
  · obtain ⟨a, b, c, d⟩ := findEof_pos h
    by_contra hne
    rcases Nat.lt_or_gt_of_ne hne with hlt | hgt
    · exact h4 _ a hlt c
    · exact d t h1 hgt h3

theorem findEof_eq_zero {buffer : Mem} {length offset : Nat}
    (h4 : ∀ k, offset < k → k < length → ¬ eoiAt buffer k) :
    findEof buffer length offset = 0 := by
  by_contra h
  obtain ⟨a, b, c, _⟩ := findEof_pos h
  exact h4 _ a b c

/-! ## Memory lemmas -/

theorem writeBytes_below {m : Mem} {pos : Nat} {bs : List Nat} {j : Nat} (h : j < pos) :
    writeBytes m pos bs j = m j := by
  unfold writeBytes
  rw [if_neg (by omega)]

theorem writeBytes_above {m : Mem} {pos : Nat} {bs : List Nat} {j : Nat}
    (h : pos + bs.length ≤ j) : writeBytes m pos bs j = m j := by
  unfold writeBytes
  rw [if_neg (by omega)]

theorem writeBytes_inside {m : Mem} {pos : Nat} {bs : List Nat} {j : Nat}
    (h1 : pos ≤ j) (h2 : j < pos + bs.length) :
    writeBytes m pos bs j = bs.getD (j - pos) 0 := by
  unfold writeBytes
  rw [if_pos ⟨h1, h2⟩]

theorem writeBytes_nil (m : Mem) (pos : Nat) : writeBytes m pos [] = m := by
  funext j
  unfold writeBytes
  rw [if_neg (by simp)]

theorem writeBytes_append (m : Mem) (pos : Nat) (as bs : List Nat) :
    writeBytes (writeBytes m pos as) (pos + as.length) bs = writeBytes m pos (as ++ bs) := by
  funext j
  unfold writeBytes
  by_cases h1 : pos + as.length ≤ j
  · by_cases h2 : j < pos + as.length + bs.length
    · rw [if_pos ⟨h1, h2⟩, if_pos ⟨by omega, by simp [List.length_append]; omega⟩]
      rw [List.getD_append_right _ _ _ _ (by omega)]
      congr 1
      omega
    · rw [if_neg (by omega), if_neg (by omega), if_neg (by simp [List.length_append]; omega)]
  · rw [if_neg (by omega)]
    by_cases h3 : pos ≤ j
    · rw [if_pos ⟨h3, by omega⟩, if_pos ⟨h3, by simp [List.length_append]; omega⟩]
      rw [List.getD_append _ _ _ _ (by omega)]
    · rw [if_neg (by omega), if_neg (by omega)]

theorem memcpyDown_above (m : Mem) (src : Nat) :
    ∀ (n j : Nat), n ≤ j → memcpyDown m src n j = m j := by
  intro n
  induction n with
  | zero => intro j _; rfl
  | succ n ih =>
    intro j hj
    simp only [memcpyDown]
    rw [if_neg (by omega)]
    exact ih j (by omega)

theorem memcpyDown_below (m : Mem) (src : Nat) :
    ∀ (n j : Nat), j < n → memcpyDown m src n j = m (src + j) := by
  intro n
  induction n with
  | zero => intro j hj; omega
  | succ n ih =>
    intro j hj
    simp only [memcpyDown]
    by_cases h : j = n
    · rw [if_pos h, h]
      exact memcpyDown_above m src n (src + n) (by omega)
    · rw [if_neg h]
      exact ih j (by omega)

theorem eoiAt_congr {m1 m2 : Mem} {k : Nat} (h1 : m1 (k - 1) = m2 (k - 1)) (h2 : m1 k = m2 k) :
    eoiAt m1 k ↔ eoiAt m2 k := by
  unfold eoiAt
  rw [h1, h2]

/-! ## One iteration of readFrame -/

theorem stats_count (s : mjpeg_source) : (stats s).1.count = (s.count + 1) % 50 ∨
    ((s.count + 1) % 50 ≠ 0 ∧ (stats s).1.count = s.count + 1) := by
  unfold stats
  by_cases h : (s.count + 1) % 50 = 0
  · left; simp [h]
  · right; simp [h]

theorem stats_keeps (s : mjpeg_source) :
    (stats s).1.jpegIndex = s.jpegIndex ∧ (stats s).1.jpegMem = s.jpegMem ∧
    (stats s).1.fd = s.fd ∧ (stats s).1.jpegBuffer = s.jpegBuffer := by
  by_cases h : (s.count + 1) % 50 = 0 <;> simp [stats, h]

theorem extractFrame_produced (objTail : Mem) (s : mjpeg_source) (buf : video_buffer)
    (eof : Nat) : (extractFrame objTail s buf eof).produced = true := rfl

theorem extractFrame_bytesused (objTail : Mem) (s : mjpeg_source) (buf : video_buffer)
    (eof : Nat) : (extractFrame objTail s buf eof).buf.bytesused = eof + 1 := rfl

theorem extractFrame_mem (objTail : Mem) (s : mjpeg_source) (buf : video_buffer)
    (eof : Nat) :
    (extractFrame objTail s buf eof).buf.mem = memcpy buf.mem (fieldBytes s objTail) (eof + 1) :=
  rfl

theorem extractFrame_jpegIndex (objTail : Mem) (s : mjpeg_source) (buf : video_buffer)
    (eof : Nat) :
    (extractFrame objTail s buf eof).src.jpegIndex = s.jpegIndex + 256 - (eof + 1) := by
  unfold extractFrame
  simp only [BUFFER_SIZE]
  rw [(stats_keeps _).1]

theorem extractFrame_jpegMem (objTail : Mem) (s : mjpeg_source) (buf : video_buffer)
    (eof : Nat) :
    (extractFrame objTail s buf eof).src.jpegMem
      = memcpyDown s.jpegMem (eof + 1) (s.jpegIndex + 256 - (eof + 1)) := by
  unfold extractFrame
  simp only [BUFFER_SIZE]
  rw [(stats_keeps _).2.1]

theorem extractFrame_fd (objTail : Mem) (s : mjpeg_source) (buf : video_buffer)
    (eof : Nat) : (extractFrame objTail s buf eof).src.fd = s.fd := by
  unfold extractFrame
  simp only [BUFFER_SIZE]
  rw [(stats_keeps _).2.2.1]

theorem readFrameLoop_nil (objTail : Mem) (s : mjpeg_source) (buf : video_buffer) :
    readFrameLoop objTail s buf []
      = { src := { s with fd := some [] }, buf := buf, out := [], produced := false } := rfl

theorem readFrameLoop_short (objTail : Mem) (s : mjpeg_source) (buf : video_buffer)
    (r : List Nat) (rest : FILE) (h : r.length < 256) :
    readFrameLoop objTail s buf (r :: rest)
      = { src := { s with jpegMem := writeBytes s.jpegMem s.jpegIndex (r.take 256),
                          fd := some rest },
          buf := buf, out := [], produced := false } := by
  simp only [readFrameLoop, BUFFER_SIZE]
  rw [if_pos h]

theorem readFrameLoop_found (objTail : Mem) (s : mjpeg_source) (buf : video_buffer)
    (r : List Nat) (rest : FILE) (h : r.length = 256)
    (hf : findEof (writeBytes s.jpegMem s.jpegIndex r) (s.jpegIndex + 256)
      (scanStart s.jpegIndex) ≠ 0) :
    readFrameLoop objTail s buf (r :: rest)
      = extractFrame objTail
          { s with jpegMem := writeBytes s.jpegMem s.jpegIndex r, fd := some rest } buf
          (findEof (writeBytes s.jpegMem s.jpegIndex r) (s.jpegIndex + 256)
            (scanStart s.jpegIndex)) := by
  have ht : r.take 256 = r := by rw [← h]; exact List.take_length _
  simp only [readFrameLoop, BUFFER_SIZE]
  rw [if_neg (by omega), ht, if_pos hf]

/-- The value of the field fd at entry does not matter to the loop, which
stores the rest of the stream there on every path. -/
theorem readFrameLoop_fd (objTail : Mem) (buf : video_buffer) (fp : FILE) (s : mjpeg_source)
    (x : Option FILE) :
    readFrameLoop objTail { s with fd := x } buf fp = readFrameLoop objTail s buf fp := by
  cases fp with
  | nil => rfl
  | cons r rest => rfl

theorem readFrameLoop_miss (objTail : Mem) (s : mjpeg_source) (buf : video_buffer)
    (r : List Nat) (rest : FILE) (h : r.length = 256)
    (hf : findEof (writeBytes s.jpegMem s.jpegIndex r) (s.jpegIndex + 256)
      (scanStart s.jpegIndex) = 0) :
    readFrameLoop objTail s buf (r :: rest)
      = readFrameLoop objTail
          { s with jpegMem := writeBytes s.jpegMem s.jpegIndex r,
                   jpegIndex := s.jpegIndex + 256 } buf rest := by
  have ht : r.take 256 = r := by rw [← h]; exact List.take_length _
  simp only [readFrameLoop, BUFFER_SIZE]
  rw [if_neg (by omega), ht, if_neg (by simp [hf])]
  exact readFrameLoop_fd objTail buf rest
    { s with jpegMem := writeBytes s.jpegMem s.jpegIndex r, jpegIndex := s.jpegIndex + 256 }
    (some rest)

/-! ## A call of readFrame that finds the terminator -/

/-- When the bytes staged at the cursor followed by the coming chunks hold a
terminator ending at index t, none ends between the start of the scan and t,
and t lies in the chunk number k (counted from 0) of the call, the call equals
the extraction at t from the state in which k + 1 chunks are stored and the
cursor has advanced by k chunks. -/
theorem readFrameLoop_scan (objTail : Mem) (buf : video_buffer) (t : Nat) (tail : FILE) :
    ∀ (k : Nat) (chunks : FILE) (s : mjpeg_source),
      k < chunks.length →
      (∀ r ∈ chunks, r.length = 256) →
      scanStart s.jpegIndex < t →
      t < s.jpegIndex + 256 * (k + 1) →
      (k = 0 ∨ s.jpegIndex + 256 * k ≤ t) →
      eoiAt (writeBytes s.jpegMem s.jpegIndex chunks.flatten) t →
      (∀ i, scanStart s.jpegIndex < i → i < t →
        ¬ eoiAt (writeBytes s.jpegMem s.jpegIndex chunks.flatten) i) →
      readFrameLoop objTail s buf (chunks ++ tail)
        = extractFrame objTail
            { s with jpegMem := writeBytes s.jpegMem s.jpegIndex (chunks.take (k + 1)).flatten,
                     jpegIndex := s.jpegIndex + 256 * k,
                     fd := some (chunks.drop (k + 1) ++ tail) } buf t := by
  intro k
  induction k with
  | zero =>
    intro chunks s hk hfull hs ht _ he hno
    cases chunks with
    | nil => simp at hk
    | cons r rest =>
      have hr : r.length = 256 := hfull r (List.mem_cons_self _ _)
      have hagree : ∀ j, j < s.jpegIndex + 256 →
          writeBytes s.jpegMem s.jpegIndex (r :: rest).flatten j
            = writeBytes s.jpegMem s.jpegIndex r j := by
        intro j hj
        rw [List.flatten_cons, ← writeBytes_append]
        exact writeBytes_below (by omega)
      have hfind : findEof (writeBytes s.jpegMem s.jpegIndex r) (s.jpegIndex + 256)
          (scanStart s.jpegIndex) = t := by
        apply findEof_eq hs (by omega)
        · exact (eoiAt_congr (hagree _ (by omega)) (hagree _ (by omega))).1 he
        · intro i h1 h2 h3
          exact hno i h1 h2
            ((eoiAt_congr (hagree _ (by omega)) (hagree _ (by omega))).2 h3)
      rw [List.cons_append, readFrameLoop_found objTail s buf r _ hr (by rw [hfind]; omega),
        hfind]
      simp
  | succ k ih =>
    intro chunks s hk hfull hs ht hge he hno
    cases chunks with
    | nil => simp at hk
    | cons r rest =>
      have hr : r.length = 256 := hfull r (List.mem_cons_self _ _)
      have hge2 : s.jpegIndex + 256 * (k + 1) ≤ t := by
        rcases hge with h | h
        · omega
        · exact h
      have hagree : ∀ j, j < s.jpegIndex + 256 →
          writeBytes s.jpegMem s.jpegIndex (r :: rest).flatten j
            = writeBytes s.jpegMem s.jpegIndex r j := by
        intro j hj
        rw [List.flatten_cons, ← writeBytes_append]
        exact writeBytes_below (by omega)
      have hfind : findEof (writeBytes s.jpegMem s.jpegIndex r) (s.jpegIndex + 256)
          (scanStart s.jpegIndex) = 0 := by
        apply findEof_eq_zero
        intro i h1 h2 h3
        exact hno i h1 (by omega)
          ((eoiAt_congr (hagree _ (by omega)) (hagree _ (by omega))).2 h3)
      rw [List.cons_append, readFrameLoop_miss objTail s buf r _ hr hfind]
      have hjoin : writeBytes (writeBytes s.jpegMem s.jpegIndex r) (s.jpegIndex + 256)
          rest.flatten = writeBytes s.jpegMem s.jpegIndex (r :: rest).flatten := by
        rw [List.flatten_cons, ← hr, writeBytes_append]
      have hss : scanStart (s.jpegIndex + 256) < t := by
        unfold scanStart; split <;> omega
      have hmono : scanStart s.jpegIndex ≤ scanStart (s.jpegIndex + 256) := by
        unfold scanStart; split <;> split <;> omega
      rw [ih rest _ (by simpa using hk) (fun r hr => hfull r (List.mem_cons_of_mem _ hr))
        (by simpa using hss) (by simp only; omega) (Or.inr (by simp only; omega))
        (by simp only; rw [hjoin]; exact he)
        (by
          intro i h1 h2
          simp only at h1 ⊢
          rw [hjoin]
          exact hno i (by omega) h2)]
      simp only [List.take_succ_cons, List.flatten_cons, List.drop_succ_cons]
      rw [← writeBytes_append, hr]
      congr 2
      omega

/-! ## The capability functions: theorems -/

/-- C6: mjpeg_source_set_format returns 0 exactly for the fourcc MJPG, which
is 0x47504A4D, returns -EINVAL for every other pixelformat, and returns the
source it was given in both cases. -/
theorem set_format_accepts_only_mjpg (s : mjpeg_source) (fmt : v4l2_pix_format) :
    v4l2_fourcc 'M' 'J' 'P' 'G' = 0x47504A4D ∧
    ((mjpeg_source_set_format s fmt).1 = 0 ↔ fmt.pixelformat = 0x47504A4D) ∧
    (fmt.pixelformat ≠ 0x47504A4D → (mjpeg_source_set_format s fmt).1 = -22) ∧
    (mjpeg_source_set_format s fmt).2.1 = s := by
  have h4 : v4l2_fourcc 'M' 'J' 'P' 'G' = 0x47504A4D := by decide
  refine ⟨h4, ?_, ?_, ?_⟩
  · unfold mjpeg_source_set_format
    rw [h4]
    by_cases h : fmt.pixelformat = 0x47504A4D
    · simp [h]
    · simp [h, EINVAL]
  · intro h
    unfold mjpeg_source_set_format
    rw [h4]
    simp [h, EINVAL]
  · unfold mjpeg_source_set_format
    split <;> rfl

theorem framesDone_inv : ∀ (lens : List Nat) (s : mjpeg_source), s.count < 50 →
    (framesDone lens s).2.length = (s.count + lens.length) / 50 ∧
    (framesDone lens s).1.count = (s.count + lens.length) % 50 ∧
    (∀ m ∈ (framesDone lens s).2, ∃ d, m = Msg.fps 50 d) ∧
    (lens ≠ [] → (s.count + lens.length) % 50 = 0 → (framesDone lens s).1.data = 0) := by
  intro lens
  induction lens with
  | nil =>
    intro s hs
    refine ⟨?_, ?_, ?_, ?_⟩
    · simp [framesDone]; omega
    · simp [framesDone]; omega
    · simp [framesDone]
    · simp
  | cons len lens ih =>
    intro s hs
    by_cases h : (s.count + 1) % 50 = 0
    · have hc : s.count = 49 := by omega
      have e1 : stats { s with data := s.data + len }
          = ({ s with data := 0, count := 0 }, [Msg.fps 50 (s.data + len)]) := by
        simp [stats, hc]
      obtain ⟨a, b, c, d⟩ := ih { s with data := 0, count := 0 } (by simp)
      simp only [framesDone, e1, List.length_append, List.length_cons, List.length_nil]
      simp only at a b c d
      refine ⟨by omega, by omega, ?_, ?_⟩
      · intro m hm
        rcases List.mem_append.1 hm with h1 | h1
        · exact ⟨_, by simpa using h1⟩
        · exact c m h1
      · intro _ h2
        by_cases hl : lens = []
        · subst hl; simp [framesDone]
        · exact d hl (by omega)
    · have e1 : stats { s with data := s.data + len }
          = ({ s with data := s.data + len, count := s.count + 1 }, []) := by
        simp [stats, h]
      obtain ⟨a, b, c, d⟩ := ih { s with data := s.data + len, count := s.count + 1 }
        (by simp only; omega)
      simp only [framesDone, e1, List.length_append, List.length_cons, List.length_nil]
      simp only at a b c d
      refine ⟨by omega, by omega, ?_, ?_⟩
      · intro m hm
        rcases List.mem_append.1 hm with h1 | h1
        · simp at h1
        · exact c m h1
      · intro _ h2
        by_cases hl : lens = []
        · subst hl; simp at h2; omega
        · exact d hl (by omega)

/-- C7: starting from frame counter 0, after the frames of any list of n
lengths have been produced, n / 50 reports have been printed (each with the
count 50), the frame counter is n mod 50; after 49 frames nothing has been
printed, and after 50 exactly one report has been printed and the frame and
byte counters are both zero. -/
theorem telemetry_window (s : mjpeg_source) (lens : List Nat) (h : s.count = 0) :
    (framesDone lens s).2.length = lens.length / 50 ∧
    (framesDone lens s).1.count = lens.length % 50 ∧
    (∀ m ∈ (framesDone lens s).2, ∃ d, m = Msg.fps 50 d) ∧
    (lens.length = 49 → (framesDone lens s).2 = []) ∧
    (lens.length = 50 → (framesDone lens s).2.length = 1 ∧
      (framesDone lens s).1.count = 0 ∧ (framesDone lens s).1.data = 0) := by
  obtain ⟨a, b, c, d⟩ := framesDone_inv lens s (by omega)
  rw [h] at a b d
  simp only [Nat.zero_add] at a b d
  refine ⟨a, b, c, ?_, ?_⟩
  · intro h49
    apply List.eq_nil_of_length_eq_zero
    rw [a, h49]
  · intro h50
    refine ⟨by rw [a, h50], by rw [b, h50], d ?_ (by rw [h50])⟩
    intro hl
    rw [hl] at h50
    simp at h50

/-- C7 at a concrete input: fifty frames of 100 bytes on the fresh source. -/
theorem telemetry_window_witness :
    freshSource.count = 0 ∧
    (framesDone (List.replicate 50 100) freshSource).2.length = 1 ∧
    (framesDone (List.replicate 50 100) freshSource).1.count = 0 ∧
    (framesDone (List.replicate 50 100) freshSource).1.data = 0 :=
  ⟨rfl,
   ((telemetry_window freshSource (List.replicate 50 100) rfl).2.2.2.2 (by simp)).1,
   ((telemetry_window freshSource (List.replicate 50 100) rfl).2.2.2.2 (by simp)).2.1,
   ((telemetry_window freshSource (List.replicate 50 100) rfl).2.2.2.2 (by simp)).2.2⟩

/-! ## Calls of mjpeg_source_fill_buffer -/

/-- The state in which setUp leaves a source when the pipe opens. -/
theorem setUp_ok (env : Env) (s : mjpeg_source) (fp : FILE)
    (hw : env.signalWritable = true) (hp : env.pipe = some fp) :
    setUp env s = Except.ok
      ({ s with jpegBuffer := env.bufAddr, jpegMem := env.bufInit, start := env.startAddr,
                tmp := env.tmpAddr, fd := some fp }, [Msg.setUpLine]) := by
  simp [setUp, hw, hp]

/-- The first call on a source without a stream, when the pipe opens. -/
theorem fill_buffer_first (env : Env) (s : mjpeg_source) (buf : video_buffer) (fp : FILE)
    (hs : s.fd = none) (hw : env.signalWritable = true) (hp : env.pipe = some fp) :
    mjpeg_source_fill_buffer env s buf = Except.ok
      { readFrameLoop env.objTail
          { s with jpegBuffer := env.bufAddr, jpegMem := env.bufInit, start := env.startAddr,
                   tmp := env.tmpAddr, fd := some fp } buf fp with
        out := [Msg.setUpLine] ++ (readFrameLoop env.objTail
          { s with jpegBuffer := env.bufAddr, jpegMem := env.bufInit, start := env.startAddr,
                   tmp := env.tmpAddr, fd := some fp } buf fp).out } := by
  simp [mjpeg_source_fill_buffer, hs, setUp_ok env s fp hw hp, readFrame]

/-- A call on a source whose stream is open. -/
theorem fill_buffer_open (env : Env) (s : mjpeg_source) (buf : video_buffer) (fp : FILE)
    (hs : s.fd = some fp) :
    mjpeg_source_fill_buffer env s buf = Except.ok (readFrameLoop env.objTail s buf fp) := by
  simp [mjpeg_source_fill_buffer, hs, readFrame]

/-! ## One call of readFrame -/

/-- C2: on the fresh source, with a pipe that delivers one chunk starting with
the image 0xFF 0xD8 0xFF 0xD9, readFrame finds the terminator at offset 3 and
reports the length 4, and at that moment the scan buffer starts with 0xFF
0xD8; the destination buffer, however, starts with 0x10 0x00, the low bytes of
the address of the scan buffer, which are what lies at the address of the
field jpegBuffer. -/
theorem readFrame_copies_pointer_field :
    findEof (writeBytes (envWith [tinyImageChunk]).bufInit 0 tinyImageChunk) 256 0 = 3 ∧
    writeBytes (envWith [tinyImageChunk]).bufInit 0 tinyImageChunk 0 = 0xFF ∧
    writeBytes (envWith [tinyImageChunk]).bufInit 0 tinyImageChunk 1 = 0xD8 ∧
    ∃ r, mjpeg_source_fill_buffer (envWith [tinyImageChunk]) freshSource emptyBuffer
        = Except.ok r ∧
      r.produced = true ∧ r.buf.bytesused = 4 ∧ r.buf.mem 0 = 0x10 ∧ r.buf.mem 1 = 0x00 := by
  refine ⟨by decide!, by decide!, by decide!, ?_⟩
  refine ⟨_, fill_buffer_first _ _ _ [tinyImageChunk] rfl rfl rfl, ?_⟩
  refine ⟨by decide!, by decide!, by decide!, by decide!⟩

/-- A call that has stored the full chunks pre without producing a frame goes
on with the rest of the stream from the state in which these chunks are
staged and the cursor has advanced past them. -/
theorem readFrameLoop_append_of_no_frame (objTail : Mem) (buf : video_buffer) (tail : FILE) :
    ∀ (pre : FILE) (s : mjpeg_source),
      (∀ r ∈ pre, r.length = 256) →
      (readFrameLoop objTail s buf pre).produced = false →
      readFrameLoop objTail s buf (pre ++ tail)
        = readFrameLoop objTail
            { s with jpegMem := writeBytes s.jpegMem s.jpegIndex pre.flatten,
                     jpegIndex := s.jpegIndex + 256 * pre.length } buf tail := by
  intro pre
  induction pre with
  | nil =>
    intro s _ _
    simp [writeBytes_nil]
  | cons r pre ih =>
    intro s hfull hp
    have hr : r.length = 256 := hfull r (List.mem_cons_self _ _)
    by_cases hf : findEof (writeBytes s.jpegMem s.jpegIndex r) (s.jpegIndex + 256)
        (scanStart s.jpegIndex) = 0
    · rw [readFrameLoop_miss objTail s buf r _ hr hf] at hp
      rw [List.cons_append, readFrameLoop_miss objTail s buf r _ hr hf,
        ih _ (fun r hr => hfull r (List.mem_cons_of_mem _ hr)) hp]
      simp only [List.flatten_cons, List.length_cons]
      rw [← writeBytes_append, hr]
      congr 2
      omega
    · rw [readFrameLoop_found objTail s buf r _ hr hf, extractFrame_produced] at hp
      exact absurd hp (by simp)

/-- C8: a read of zero items ends the call with no frame. When the call has
stored the full chunks pre without producing a frame and the next read
obtains fewer than 256 bytes, readFrame returns without a frame: the
destination buffer and the counters count and data are as at entry, the cursor
is its value at entry plus 256 times the number of chunks in pre, and the
staged bytes below the cursor are what they were before the read. The same
holds when the stream is exhausted after pre and the read obtains nothing. -/
theorem zero_read_returns (objTail : Mem) (s : mjpeg_source) (buf : video_buffer)
    (pre : FILE) (z : List Nat) (rest : FILE)
    (hfull : ∀ r ∈ pre, r.length = 256) (hz : z.length < 256)
    (hpre : (readFrameLoop objTail s buf pre).produced = false) :
    (readFrameLoop objTail s buf (pre ++ z :: rest)).produced = false ∧
    (readFrameLoop objTail s buf (pre ++ z :: rest)).buf = buf ∧
    (readFrameLoop objTail s buf (pre ++ z :: rest)).out = [] ∧
    (readFrameLoop objTail s buf (pre ++ z :: rest)).src.count = s.count ∧
    (readFrameLoop objTail s buf (pre ++ z :: rest)).src.data = s.data ∧
    (readFrameLoop objTail s buf (pre ++ z :: rest)).src.jpegIndex
      = s.jpegIndex + 256 * pre.length ∧
    (readFrameLoop objTail s buf (pre ++ z :: rest)).src.fd = some rest ∧
    (∀ j, j < s.jpegIndex + 256 * pre.length →
      (readFrameLoop objTail s buf (pre ++ z :: rest)).src.jpegMem j
        = (readFrameLoop objTail s buf pre).src.jpegMem j) ∧
    (∀ j, j < s.jpegIndex →
      (readFrameLoop objTail s buf (pre ++ z :: rest)).src.jpegMem j = s.jpegMem j) ∧
    (readFrameLoop objTail s buf pre).buf = buf ∧
    (readFrameLoop objTail s buf pre).src.count = s.count ∧
    (readFrameLoop objTail s buf pre).src.data = s.data ∧
    (readFrameLoop objTail s buf pre).src.jpegIndex = s.jpegIndex + 256 * pre.length ∧
    (∀ j, j < s.jpegIndex → (readFrameLoop objTail s buf pre).src.jpegMem j = s.jpegMem j) := by
  have h1 := readFrameLoop_append_of_no_frame objTail buf (z :: rest) pre s hfull hpre
  have h2 := readFrameLoop_append_of_no_frame objTail buf [] pre s hfull hpre
  rw [List.append_nil] at h2
  rw [h1, h2, readFrameLoop_short _ _ _ _ _ (by simpa [BUFFER_SIZE] using hz), readFrameLoop_nil]
  refine ⟨rfl, rfl, rfl, rfl, rfl, rfl, rfl, ?_, ?_, rfl, rfl, rfl, rfl, ?_⟩
  · intro j hj
    exact writeBytes_below hj
  · intro j hj
    simp only
    rw [writeBytes_below (by omega), writeBytes_below hj]
  · intro j hj
    exact writeBytes_below hj

/-- C8 at a concrete input: one chunk of zeros is stored, then the read
obtains three bytes. -/
theorem zero_read_returns_witness :
    (readFrameLoop (fun _ => 0) readySource emptyBuffer
      (([zeroChunk] : FILE) ++ ([1, 2, 3] :: [] : FILE))).produced
      = false ∧
    (readFrameLoop (fun _ => 0) readySource emptyBuffer
      (([zeroChunk] : FILE) ++ ([1, 2, 3] :: [] : FILE))).src.jpegIndex
      = readySource.jpegIndex + 256 * [zeroChunk].length := by
  have h := zero_read_returns (fun _ => 0) readySource emptyBuffer [zeroChunk] [1, 2, 3] []
    (by intro r hr; simp only [List.mem_singleton] at hr; subst hr; decide!) (by decide) (by decide!)
  with_reducible exact ⟨h.1, h.2.2.2.2.2.1⟩

/-- C9: when the signal path cannot be opened for reading, the call on a
source without a stream does not return: it ends in fread on the null stream,
or already in fclose on the null result when the path cannot be opened for
writing either. -/
theorem fill_buffer_faults_when_open_fails (env : Env) (s : mjpeg_source)
    (buf : video_buffer) :
    mjpeg_source_fill_buffer { env with pipe := none } { s with fd := none } buf
      = Except.error (if env.signalWritable then Fault.freadNull else Fault.fcloseNull) := by
  cases hw : env.signalWritable <;> simp [mjpeg_source_fill_buffer, setUp, readFrame, hw]

theorem flatten_length_full : ∀ (fp : FILE), (∀ r ∈ fp, r.length = 256) →
    fp.flatten.length = 256 * fp.length := by
  intro fp
  induction fp with
  | nil => intro _; rfl
  | cons r fp ih =>
    intro h
    rw [List.flatten_cons, List.length_append, h r (List.mem_cons_self _ _),
      ih (fun x hx => h x (List.mem_cons_of_mem _ hx)), List.length_cons]
    omega

theorem writeBytes_zero_listMem (m : Mem) (bs : List Nat) (j : Nat) (h : j < bs.length) :
    writeBytes m 0 bs j = listMem bs j := by
  rw [writeBytes_inside (Nat.zero_le _) (by omega)]
  rfl

theorem listMem_append_left (as bs : List Nat) (j : Nat) (h : j < as.length) :
    listMem (as ++ bs) j = listMem as j := by
  unfold listMem
  rw [List.getD_append _ _ _ _ h]

theorem listMem_append_right (as bs : List Nat) (j : Nat) :
    listMem (as ++ bs) (as.length + j) = listMem bs j := by
  unfold listMem
  rw [List.getD_append_right _ _ _ _ (by omega)]
  congr 1
  omega

/-- The stored bytes below the end of the first n chunks do not depend on the
chunks that follow. -/
theorem writeBytes_take_flatten (m : Mem) (pos n : Nat) (chunks : FILE)
    (hfull : ∀ r ∈ chunks, r.length = 256) (hn : n ≤ chunks.length) (j : Nat)
    (hj : j < pos + 256 * n) :
    writeBytes m pos (chunks.take n).flatten j = writeBytes m pos chunks.flatten j := by
  have hlen : (chunks.take n).flatten.length = 256 * n := by
    rw [flatten_length_full _ (fun r hr => hfull r (List.mem_of_mem_take hr)),
      List.length_take, Nat.min_eq_left hn]
  have hsplit : writeBytes m pos chunks.flatten j
      = writeBytes (writeBytes m pos (chunks.take n).flatten)
          (pos + (chunks.take n).flatten.length) (chunks.drop n).flatten j := by
    rw [writeBytes_append, ← List.flatten_append, List.take_append_drop]
  rw [hsplit]
  exact (writeBytes_below (by omega)).symm

/-- The observable outcome of a call that finds the terminator at index t, in
the chunk number k of the call. -/
theorem readFrameLoop_scan_facts (objTail : Mem) (buf : video_buffer) (t : Nat) (tail : FILE)
    (k : Nat) (chunks : FILE) (s : mjpeg_source)
    (hk : k < chunks.length)
    (hfull : ∀ r ∈ chunks, r.length = 256)
    (hs : scanStart s.jpegIndex < t)
    (ht : t < s.jpegIndex + 256 * (k + 1))
    (hge : k = 0 ∨ s.jpegIndex + 256 * k ≤ t)
    (he : eoiAt (writeBytes s.jpegMem s.jpegIndex chunks.flatten) t)
    (hno : ∀ i, scanStart s.jpegIndex < i → i < t →
      ¬ eoiAt (writeBytes s.jpegMem s.jpegIndex chunks.flatten) i) :
    (readFrameLoop objTail s buf (chunks ++ tail)).produced = true ∧
    (readFrameLoop objTail s buf (chunks ++ tail)).buf.bytesused = t + 1 ∧
    (readFrameLoop objTail s buf (chunks ++ tail)).src.jpegIndex
      = s.jpegIndex + 256 * (k + 1) - (t + 1) ∧
    (readFrameLoop objTail s buf (chunks ++ tail)).src.fd
      = some (chunks.drop (k + 1) ++ tail) ∧
    ∀ j, j < s.jpegIndex + 256 * (k + 1) - (t + 1) →
      (readFrameLoop objTail s buf (chunks ++ tail)).src.jpegMem j
        = writeBytes s.jpegMem s.jpegIndex chunks.flatten (t + 1 + j) := by
  rw [readFrameLoop_scan objTail buf t tail k chunks s hk hfull hs ht hge he hno]
  refine ⟨rfl, rfl, ?_, ?_, ?_⟩
  · rw [extractFrame_jpegIndex]
    simp only
    omega
  · rw [extractFrame_fd]
  · intro j hj
    rw [extractFrame_jpegMem]
    simp only
    rw [memcpyDown_below _ _ _ _ (by omega)]
    exact writeBytes_take_flatten _ _ _ _ hfull (by omega) _ (by omega)

/-! ## The first call on a fresh source -/

/-- A call at cursor 0 on full chunks that start with a frame: the frame is
cut after its last byte, what the chunks hold after it is staged, and the
chunks after the one with the terminator stay in the stream. -/
theorem readFrameLoop_cuts_first_frame (objTail : Mem) (buf : video_buffer) (s : mjpeg_source)
    (frame more : List Nat) (full tail : FILE)
    (hi : s.jpegIndex = 0)
    (hfull : ∀ r ∈ full, r.length = 256)
    (hf : wellFormedFrame frame)
    (hdata : full.flatten = frame ++ more) :
    (readFrameLoop objTail s buf (full ++ tail)).produced = true ∧
    (readFrameLoop objTail s buf (full ++ tail)).buf.bytesused = frame.length ∧
    (readFrameLoop objTail s buf (full ++ tail)).src.jpegIndex
      = 256 * ((frame.length - 1) / 256 + 1) - frame.length ∧
    (readFrameLoop objTail s buf (full ++ tail)).src.fd
      = some (full.drop ((frame.length - 1) / 256 + 1) ++ tail) ∧
    ∀ j, j < 256 * ((frame.length - 1) / 256 + 1) - frame.length →
      (readFrameLoop objTail s buf (full ++ tail)).src.jpegMem j = listMem more j := by
  obtain ⟨h2, hlast, hnone⟩ := hf
  have hlen : 256 * full.length = frame.length + more.length := by
    rw [← flatten_length_full full hfull, hdata, List.length_append]
  have hmem : ∀ j, j < 256 * full.length →
      writeBytes s.jpegMem s.jpegIndex full.flatten j = listMem (frame ++ more) j := by
    intro j hj
    rw [hi, writeBytes_zero_listMem _ _ _ (by rw [flatten_length_full full hfull]; exact hj),
      hdata]
  have hfr : ∀ j, j < frame.length →
      writeBytes s.jpegMem s.jpegIndex full.flatten j = listMem frame j := by
    intro j hj
    rw [hmem j (by omega), listMem_append_left _ _ _ hj]
  have hss : scanStart s.jpegIndex = 0 := by rw [hi]; rfl
  obtain ⟨f1, f2, f3, f4, f5⟩ := readFrameLoop_scan_facts objTail buf (frame.length - 1) tail
    ((frame.length - 1) / 256) full s
    (by omega) hfull (by rw [hss]; omega) (by rw [hi]; omega) (by rw [hi]; omega)
    (by
      refine (eoiAt_congr ?_ ?_).2 hlast
      · exact hfr _ (by omega)
      · exact hfr _ (by omega))
    (by
      intro i _ h2 h3
      refine hnone i h2 ((eoiAt_congr ?_ ?_).1 h3)
      · exact hfr _ (by omega)
      · exact hfr _ (by omega))
  rw [hi] at f3 f5 hmem
  refine ⟨f1, by rw [f2]; omega, by rw [f3]; omega, f4, ?_⟩
  intro j hj
  rw [f5 j (by omega)]
  have e : frame.length - 1 + 1 + j = frame.length + j := by omega
  rw [e, hmem _ (by omega), listMem_append_right]

/-! ## One frame followed by extra bytes -/

theorem zeroFrame_length (n : Nat) : (zeroFrame n).length = n + 2 := by
  simp [zeroFrame]

theorem zeroFrame_wellFormed (n : Nat) : wellFormedFrame (zeroFrame n) := by
  have hlo : ∀ i, i < n → listMem (zeroFrame n) i = 0 := by
    intro i hi
    unfold listMem zeroFrame
    rw [List.getD_append _ _ _ _ (by simpa using hi)]
    rw [List.getD_eq_getElem _ _ (by simpa using hi)]
    simp
  have hff : listMem (zeroFrame n) n = 0xFF := by
    unfold listMem zeroFrame
    rw [List.getD_append_right _ _ _ _ (by simp)]
    simp
  have hd9 : listMem (zeroFrame n) (n + 1) = 0xD9 := by
    unfold listMem zeroFrame
    rw [List.getD_append_right _ _ _ _ (by simp)]
    simp
  refine ⟨by rw [zeroFrame_length]; omega, ?_, ?_⟩
  · rw [zeroFrame_length]
    refine ⟨?_, ?_⟩
    · show listMem (zeroFrame n) (n + 2 - 1 - 1) % 256 = 0xFF
      rw [show n + 2 - 1 - 1 = n by omega, hff]
    · show listMem (zeroFrame n) (n + 2 - 1) % 256 = 0xD9
      rw [show n + 2 - 1 = n + 1 by omega, hd9]
  · rw [zeroFrame_length]
    intro i hi h
    have h2 : listMem (zeroFrame n) i % 256 = 0xD9 := h.2
    by_cases hin : i < n
    · rw [hlo i hin] at h2
      simp at h2
    · have : i = n := by omega
      rw [this, hff] at h2
      simp at h2

theorem full5120_full : ∀ r ∈ full5120, r.length = 256 := by
  intro r hr
  unfold full5120 at hr
  rcases List.mem_append.1 hr with h | h
  · rw [List.eq_of_mem_replicate h]
    decide!
  · rw [List.mem_singleton.1 h]
    decide!

theorem full5120_flatten : full5120.flatten = zeroFrame 4998 ++ List.replicate 120 7 := by
  decide!

/-- The first call of mjpeg_source_fill_buffer on a fresh source whose pipe
delivers full chunks that start with a frame. -/
theorem first_call_cuts_frame (env : Env) (buf : video_buffer) (p1 p2 : String)
    (frame more : List Nat) (full tail : FILE)
    (hw : env.signalWritable = true) (hp : env.pipe = some (full ++ tail))
    (hfull : ∀ r ∈ full, r.length = 256)
    (hf : wellFormedFrame frame)
    (hdata : full.flatten = frame ++ more) :
    ∃ r, mjpeg_source_fill_buffer env (mjpeg_video_source_create p1 p2) buf = Except.ok r ∧
      r.produced = true ∧ r.buf.bytesused = frame.length ∧
      r.src.jpegIndex = 256 * ((frame.length - 1) / 256 + 1) - frame.length ∧
      r.src.fd = some (full.drop ((frame.length - 1) / 256 + 1) ++ tail) ∧
      ∀ j, j < 256 * ((frame.length - 1) / 256 + 1) - frame.length →
        r.src.jpegMem j = listMem more j := by
  obtain ⟨f1, f2, f3, f4, f5⟩ := readFrameLoop_cuts_first_frame env.objTail buf
    { mjpeg_video_source_create p1 p2 with
      jpegBuffer := env.bufAddr, jpegMem := env.bufInit, start := env.startAddr,
      tmp := env.tmpAddr, fd := some (full ++ tail) }
    frame more full tail rfl hfull hf hdata
  exact ⟨_, fill_buffer_first env _ buf (full ++ tail) rfl hw hp, f1, f2, f3, f4, f5⟩

/-- C3, as the code behaves: on a fresh source, when the pipe carries a frame
of 5000 bytes whose only terminator is its last two bytes, followed by 300
extra bytes, the first call produces a frame of reported length 5000 and
leaves 120 bytes staged, the first 120 extra bytes; the other 180 extra bytes
are still in the stream, where they do not fill a chunk. -/
theorem one_frame_then_extra (env : Env) (buf : video_buffer) (p1 p2 : String)
    (frame extra : List Nat) (full : FILE) (short : List Nat)
    (hw : env.signalWritable = true) (hp : env.pipe = some (full ++ [short]))
    (hfull : ∀ r ∈ full, r.length = 256) (hshort : short.length < 256)
    (hdata : full.flatten ++ short = frame ++ extra)
    (hf : wellFormedFrame frame) (hlen : frame.length = 5000) (hx : extra.length = 300) :
    ∃ r, mjpeg_source_fill_buffer env (mjpeg_video_source_create p1 p2) buf = Except.ok r ∧
      r.produced = true ∧ r.buf.bytesused = 5000 ∧ r.src.jpegIndex = 120 ∧
      (∀ j, j < 120 → r.src.jpegMem j = listMem extra j) ∧
      r.src.fd = some [short] ∧ short = extra.drop 120 ∧ short.length = 180 := by
  have hl := congrArg List.length hdata
  rw [List.length_append, List.length_append, flatten_length_full full hfull, hlen, hx] at hl
  have hn : full.length = 20 := by omega
  have hfl : full.flatten.length = 5120 := by rw [flatten_length_full full hfull, hn]
  have h1 : full.flatten = frame ++ extra.take 120 := by
    have := congrArg (List.take 5120) hdata
    rw [List.take_append_of_le_length (by omega), List.take_of_length_le (by omega),
      List.take_append_eq_append_take, List.take_of_length_le (by omega), hlen] at this
    exact this
  have h2 : short = extra.drop 120 := by
    have := congrArg (List.drop 5120) hdata
    rw [List.drop_append_of_le_length (by omega), List.drop_of_length_le (by omega),
      List.nil_append, List.drop_append_eq_append_drop, List.drop_of_length_le (by omega),
      List.nil_append, hlen] at this
    exact this
  obtain ⟨r, f0, f1, f2, f3, f4, f5⟩ := first_call_cuts_frame env buf p1 p2 frame
    (extra.take 120) full [short] hw hp hfull hf h1
  rw [hlen] at f2 f3 f4 f5
  refine ⟨r, f0, f1, f2, f3, ?_, ?_, h2, ?_⟩
  · intro j hj
    refine (f5 j hj).trans ?_
    unfold listMem
    rw [List.getD_eq_getElem _ _ (by rw [List.length_take]; omega),
      List.getD_eq_getElem _ _ (by omega), List.getElem_take]
  · refine f4.trans ?_
    rw [List.drop_of_length_le (by omega), List.nil_append]
  · rw [h2, List.length_drop, hx]

/-- C3 at a concrete input: 4998 zero bytes and the terminator, followed by
300 bytes of value 7. -/
theorem one_frame_then_extra_witness :
    ∃ r, mjpeg_source_fill_buffer (envWith channel5300)
        (mjpeg_video_source_create "/tmp/mjpeg" "/tmp/mjpeg.signal") emptyBuffer = Except.ok r ∧
      r.produced = true ∧ r.buf.bytesused = 5000 ∧ r.src.jpegIndex = 120 ∧
      (∀ j, j < 120 → r.src.jpegMem j = listMem extra300 j) ∧
      r.src.fd = some [tail180] ∧ tail180 = extra300.drop 120 ∧ tail180.length = 180 :=
  one_frame_then_extra (envWith channel5300) emptyBuffer "/tmp/mjpeg" "/tmp/mjpeg.signal"
    (zeroFrame 4998) extra300 full5120 tail180 rfl rfl full5120_full (by decide!)
    (by decide!) (zeroFrame_wellFormed 4998) (zeroFrame_length 4998) (by decide!)

/-- C3 as stated fails: with a frame of 4998 zero bytes and the terminator,
followed by 300 bytes of value 7, the first call reports the length 5000 but
leaves the cursor at 120, not at 300. -/
theorem staged_after_first_frame_is_not_300 :
    wellFormedFrame (zeroFrame 4998) ∧ (zeroFrame 4998).length = 5000 ∧
    extra300.length = 300 ∧ channel5300.flatten = zeroFrame 4998 ++ extra300 ∧
    ∃ r, mjpeg_source_fill_buffer (envWith channel5300) freshSource emptyBuffer = Except.ok r ∧
      r.produced = true ∧ r.buf.bytesused = 5000 ∧ r.src.jpegIndex = 120 ∧
      ¬ (r.src.jpegIndex = 300) := by
  obtain ⟨r, f0, f1, f2, f3, _, _⟩ := first_call_cuts_frame (envWith channel5300) emptyBuffer
    "/tmp/mjpeg" "/tmp/mjpeg.signal" (zeroFrame 4998) (List.replicate 120 7) full5120 [tail180]
    rfl rfl full5120_full (zeroFrame_wellFormed 4998) full5120_flatten
  have e3 : 256 * ((4998 + 2 - 1) / 256 + 1) - (4998 + 2) = 120 := by decide
  rw [zeroFrame_length] at f2 f3
  rw [e3] at f3
  refine ⟨zeroFrame_wellFormed 4998, zeroFrame_length 4998, by decide!, by decide!, ?_⟩
  refine ⟨r, f0, f1, f2, f3, ?_⟩
  rw [f3]
  decide

/-! ## The cursor and the capacity of the scan buffer -/

theorem scanStart_lookback (c : Nat) : c ≤ scanStart c + 10 := by
  unfold scanStart
  split <;> omega

/-- A call over full chunks none of which completes a terminator stores all of
them and returns at the end of the stream. -/
theorem readFrameLoop_all_miss (objTail : Mem) (buf : video_buffer) :
    ∀ (fp : FILE) (s : mjpeg_source),
      (∀ r ∈ fp, r.length = 256) →
      (∀ i, scanStart s.jpegIndex < i → i < s.jpegIndex + 256 * fp.length →
        ¬ eoiAt (writeBytes s.jpegMem s.jpegIndex fp.flatten) i) →
      (readFrameLoop objTail s buf fp).produced = false := by
  intro fp
  induction fp with
  | nil => intro s _ _; rfl
  | cons r rest ih =>
    intro s hfull hno
    have hr : r.length = 256 := hfull r (List.mem_cons_self _ _)
    have hjoin : writeBytes (writeBytes s.jpegMem s.jpegIndex r) (s.jpegIndex + 256)
        rest.flatten = writeBytes s.jpegMem s.jpegIndex (r :: rest).flatten := by
      rw [List.flatten_cons, ← hr, writeBytes_append]
    have hagree : ∀ j, j < s.jpegIndex + 256 →
        writeBytes s.jpegMem s.jpegIndex (r :: rest).flatten j
          = writeBytes s.jpegMem s.jpegIndex r j := by
      intro j hj
      rw [← hjoin]
      exact writeBytes_below hj
    have hlen : (r :: rest).length = rest.length + 1 := rfl
    have hfind : findEof (writeBytes s.jpegMem s.jpegIndex r) (s.jpegIndex + 256)
        (scanStart s.jpegIndex) = 0 := by
      apply findEof_eq_zero
      intro i h1 h2 h3
      exact hno i h1 (by rw [hlen]; omega)
        ((eoiAt_congr (hagree _ (by omega)) (hagree _ (by omega))).2 h3)
    have hmono : scanStart s.jpegIndex ≤ scanStart (s.jpegIndex + 256) := by
      unfold scanStart; split <;> split <;> omega
    rw [readFrameLoop_miss objTail s buf r _ hr hfind]
    apply ih _ (fun r hr => hfull r (List.mem_cons_of_mem _ hr))
    intro i h1 h2
    simp only at h1 h2 ⊢
    rw [hjoin]
    exact hno i (by omega) (by rw [hlen]; omega)

theorem zeroStream_no_eoi (n : Nat) (m : Mem) (i : Nat)
    (hi : i < 256 * n) :
    ¬ eoiAt (writeBytes m 0 (List.replicate n zeroChunk).flatten) i := by
  have hfull : ∀ r ∈ List.replicate n zeroChunk, r.length = 256 := by
    intro r hr
    rw [List.eq_of_mem_replicate hr]
    decide!
  have hlen : (List.replicate n zeroChunk).flatten.length = 256 * n := by
    rw [flatten_length_full _ hfull, List.length_replicate]
  intro h
  have h2 : writeBytes m 0 (List.replicate n zeroChunk).flatten i % 256 = 0xD9 := h.2
  rw [writeBytes_inside (Nat.zero_le _) (by omega), List.getD_eq_getElem _ _ (by omega)] at h2
  have hmem := List.getElem_mem (l := (List.replicate n zeroChunk).flatten) (n := i - 0)
    (by omega)
  obtain ⟨c, hc, hx⟩ := List.mem_flatten.1 hmem
  rw [List.eq_of_mem_replicate hc] at hx
  rw [List.eq_of_mem_replicate hx] at h2
  simp at h2

end UvcGadget

namespace UvcGadget

/-- The first call on a fresh source whose pipe delivers full chunks without
a terminator and then a read of fewer than 256 bytes: all the chunks are
stored, no frame is produced, and the cursor stands after the last chunk. -/
theorem first_call_stores_all (env : Env) (buf : video_buffer) (p1 p2 : String)
    (full : FILE) (z : List Nat) (rest : FILE)
    (hw : env.signalWritable = true) (hp : env.pipe = some (full ++ z :: rest))
    (hfull : ∀ r ∈ full, r.length = 256) (hz : z.length < 256)
    (hno : ∀ i, i < 256 * full.length → ¬ eoiAt (writeBytes env.bufInit 0 full.flatten) i) :
    ∃ r, mjpeg_source_fill_buffer env (mjpeg_video_source_create p1 p2) buf = Except.ok r ∧
      r.produced = false ∧ r.src.fd = some rest ∧ r.src.jpegIndex = 256 * full.length := by
  have hpre := readFrameLoop_all_miss env.objTail buf full
    { mjpeg_video_source_create p1 p2 with
      jpegBuffer := env.bufAddr, jpegMem := env.bufInit, start := env.startAddr,
      tmp := env.tmpAddr, fd := some (full ++ z :: rest) }
    hfull (fun i _ h2 => hno i (by simpa [mjpeg_video_source_create] using h2))
  have happ := readFrameLoop_append_of_no_frame env.objTail buf (z :: rest) full _ hfull hpre
  rw [readFrameLoop_short _ _ _ _ _ (by simpa [BUFFER_SIZE] using hz)] at happ
  refine ⟨_, fill_buffer_first env _ buf (full ++ z :: rest) rfl hw hp, ?_, ?_, ?_⟩
  · simp only [happ]
  · simp only [happ]
  · simp only [happ]
    simp [mjpeg_video_source_create]

/-- C5 as stated fails: on a fresh source whose pipe delivers 8192 chunks of
zeros and then a read without data, the first call stores all the chunks and
returns with the cursor at 2097152, the capacity of the scan buffer, and with
one more chunk waiting in the stream; jpegIndex + 256 exceeds 2 * 1024 * 1024
when that chunk is read. -/
theorem cursor_reaches_capacity :
    ∃ r, mjpeg_source_fill_buffer (envWith channelOverflow) freshSource emptyBuffer
        = Except.ok r ∧
      r.produced = false ∧ r.src.fd = some [zeroChunk] ∧ r.src.jpegIndex = 2097152 ∧
      ¬ (r.src.jpegIndex + 256 ≤ 2 * 1024 * 1024) := by
  have hfull : ∀ r ∈ List.replicate 8192 zeroChunk, r.length = 256 := by
    intro r hr
    rw [List.eq_of_mem_replicate hr]
    decide!
  obtain ⟨r, f0, f1, f2, f3⟩ := first_call_stores_all (envWith channelOverflow) emptyBuffer
    "/tmp/mjpeg" "/tmp/mjpeg.signal" (List.replicate 8192 zeroChunk) [] [zeroChunk]
    rfl rfl hfull (by decide)
    (fun i hi => zeroStream_no_eoi 8192 _ i (by rw [List.length_replicate] at hi; exact hi))
  rw [List.length_replicate] at f3
  refine ⟨r, f0, f1, f2, f3, ?_⟩
  rw [f3]
  decide

/-! ## Sequences of frames -/

theorem scanStart_lt (c t : Nat) (hc : c ≤ t) (ht : 1 ≤ t) : scanStart c < t := by
  unfold scanStart
  split <;> omega

/-- The bytes stored from the chunk number n on are the bytes of the chunks
from number n on. -/
theorem writeBytes_drop_flatten (m : Mem) (pos n : Nat) (chunks : FILE)
    (hfull : ∀ r ∈ chunks, r.length = 256) (hn : n ≤ chunks.length) (x : Nat)
    (h1 : pos + 256 * n ≤ x) (h2 : x < pos + 256 * chunks.length) :
    writeBytes m pos chunks.flatten x = listMem (chunks.drop n).flatten (x - (pos + 256 * n)) := by
  have hlen : (chunks.take n).flatten.length = 256 * n := by
    rw [flatten_length_full _ (fun r hr => hfull r (List.mem_of_mem_take hr)),
      List.length_take, Nat.min_eq_left hn]
  have hlen2 : (chunks.drop n).flatten.length = 256 * (chunks.length - n) := by
    rw [flatten_length_full _ (fun r hr => hfull r (List.mem_of_mem_drop hr)),
      List.length_drop]
  have hsplit : writeBytes m pos chunks.flatten x
      = writeBytes (writeBytes m pos (chunks.take n).flatten)
          (pos + (chunks.take n).flatten.length) (chunks.drop n).flatten x := by
    rw [writeBytes_append, ← List.flatten_append, List.take_append_drop]
  rw [hsplit, hlen, writeBytes_inside h1 (by rw [hlen2]; omega)]
  rfl

/-- A call in a state whose staged bytes and coming chunks are the bytes of a
frame of at least 256 bytes followed by further data, with at most 255 bytes
staged: the frame is cut after its last byte, and the state after the call
stands in the same relation to the further data. -/
theorem readFrameLoop_cuts_next_frame (objTail : Mem) (buf : video_buffer) (s : mjpeg_source)
    (fp : FILE) (f rest : List Nat)
    (hfull : ∀ r ∈ fp, r.length = 256)
    (hc : s.jpegIndex ≤ 255)
    (hlen : s.jpegIndex + 256 * fp.length = f.length + rest.length)
    (hmem : ∀ j, j < f.length + rest.length →
      writeBytes s.jpegMem s.jpegIndex fp.flatten j = listMem (f ++ rest) j)
    (hf : wellFormedFrame f) (h256 : 256 ≤ f.length) :
    (readFrameLoop objTail s buf fp).produced = true ∧
    (readFrameLoop objTail s buf fp).buf.bytesused = f.length ∧
    ∃ fp2, (readFrameLoop objTail s buf fp).src.fd = some fp2 ∧
      (∀ r ∈ fp2, r.length = 256) ∧
      (readFrameLoop objTail s buf fp).src.jpegIndex ≤ 255 ∧
      (readFrameLoop objTail s buf fp).src.jpegIndex + 256 * fp2.length = rest.length ∧
      ∀ j, j < rest.length →
        writeBytes (readFrameLoop objTail s buf fp).src.jpegMem
          (readFrameLoop objTail s buf fp).src.jpegIndex fp2.flatten j = listMem rest j := by
  obtain ⟨_, hlast, hnone⟩ := hf
  have hfr : ∀ j, j < f.length →
      writeBytes s.jpegMem s.jpegIndex fp.flatten j = listMem f j := by
    intro j hj
    rw [hmem j (by omega), listMem_append_left _ _ _ hj]
  have hk : (f.length - 1 - s.jpegIndex) / 256 < fp.length := by omega
  obtain ⟨f1, f2, f3, f4, f5⟩ := readFrameLoop_scan_facts objTail buf (f.length - 1) []
    ((f.length - 1 - s.jpegIndex) / 256) fp s hk hfull
    (scanStart_lt _ _ (by omega) (by omega)) (by omega) (Or.inr (by omega))
    (by
      refine (eoiAt_congr ?_ ?_).2 hlast
      · exact hfr _ (by omega)
      · exact hfr _ (by omega))
    (by
      intro i _ h2 h3
      refine hnone i h2 ((eoiAt_congr ?_ ?_).1 h3)
      · exact hfr _ (by omega)
      · exact hfr _ (by omega))
  rw [List.append_nil] at f1 f2 f3 f4 f5
  refine ⟨f1, by rw [f2]; omega, fp.drop ((f.length - 1 - s.jpegIndex) / 256 + 1),
    by rw [f4, List.append_nil], fun r hr => hfull r (List.mem_of_mem_drop hr),
    by rw [f3]; omega, by rw [f3, List.length_drop]; omega, ?_⟩
  intro j hj
  rw [f3]
  by_cases hjc : j < s.jpegIndex + 256 * ((f.length - 1 - s.jpegIndex) / 256 + 1)
      - (f.length - 1 + 1)
  · rw [writeBytes_below hjc, f5 j hjc, hmem _ (by omega),
      show f.length - 1 + 1 + j = f.length + j by omega, listMem_append_right]
  · have hx := writeBytes_drop_flatten s.jpegMem s.jpegIndex
      ((f.length - 1 - s.jpegIndex) / 256 + 1) fp hfull (by omega) (f.length + j)
      (by omega) (by omega)
    rw [hmem _ (by omega), listMem_append_right] at hx
    rw [hx, writeBytes_inside (by omega)
      (by
        rw [flatten_length_full _ (fun r hr => hfull r (List.mem_of_mem_drop hr)),
          List.length_drop]
        omega)]
    have e : j - (s.jpegIndex + 256 * ((f.length - 1 - s.jpegIndex) / 256 + 1)
        - (f.length - 1 + 1))
        = f.length + j - (s.jpegIndex + 256 * ((f.length - 1 - s.jpegIndex) / 256 + 1)) := by
      omega
    rw [e]
    rfl

theorem full_flatten_nil (fp : FILE) (hfull : ∀ r ∈ fp, r.length = 256)
    (h : 256 * fp.length = 0) : fp = [] := by
  cases fp with
  | nil => rfl
  | cons r rest => simp at h

theorem getLastD_lengths (f : List Nat) (rest : List (List Nat)) (b : Nat) :
    ((f :: rest).map List.length).getLastD b = (rest.map List.length).getLastD f.length := by
  rw [List.map_cons, List.getLastD_cons]

/-! ## The result of findEof -/

/-- C16: findEof returns the smallest index i with offset < i < length whose
byte i - 1 is 0xFF and whose byte i is 0xD9, the bytes taken modulo 256; it
returns 0 exactly when there is no such index; a result other than 0 is at
least offset + 1, so 0 is never the position of a match. -/
theorem findEof_first_terminator (buffer : Mem) (length offset : Nat) :
    (findEof buffer length offset = 0 ↔
      ∀ i, offset < i → i < length →
        ¬ (buffer (i - 1) % 256 = 0xFF ∧ buffer i % 256 = 0xD9)) ∧
    (findEof buffer length offset ≠ 0 →
      offset + 1 ≤ findEof buffer length offset ∧
      1 ≤ findEof buffer length offset ∧
      findEof buffer length offset < length ∧
      buffer (findEof buffer length offset - 1) % 256 = 0xFF ∧
      buffer (findEof buffer length offset) % 256 = 0xD9 ∧
      ∀ i, offset < i → i < findEof buffer length offset →
        ¬ (buffer (i - 1) % 256 = 0xFF ∧ buffer i % 256 = 0xD9)) ∧
    (∀ t, offset < t → t < length →
      buffer (t - 1) % 256 = 0xFF → buffer t % 256 = 0xD9 →
      (∀ i, offset < i → i < t → ¬ (buffer (i - 1) % 256 = 0xFF ∧ buffer i % 256 = 0xD9)) →
      findEof buffer length offset = t) := by
  refine ⟨⟨fun h => findEof_zero h, fun h => findEof_eq_zero h⟩, ?_, ?_⟩
  · intro h
    obtain ⟨a, b, c, d⟩ := findEof_pos h
    exact ⟨a, by omega, b, c.1, c.2, d⟩
  · intro t h1 h2 h3 h4 h5
    exact findEof_eq h1 h2 ⟨h3, h4⟩ h5

/-! ## The streaming flag and the life cycle -/

/-- C12: mjpeg_source_stream_on and mjpeg_source_stream_off return 0 and
change the field streaming only, to true and to false; each is idempotent,
and stream_off after stream_on leaves the source as it was with the flag
false, which is the source itself when the flag was false before. -/
theorem stream_on_off_toggle_flag_only (s : mjpeg_source) :
    mjpeg_source_stream_on s = (0, { s with streaming := true }) ∧
    mjpeg_source_stream_off s = (0, { s with streaming := false }) ∧
    (mjpeg_source_stream_on (mjpeg_source_stream_on s).2).2 = (mjpeg_source_stream_on s).2 ∧
    (mjpeg_source_stream_off (mjpeg_source_stream_off s).2).2
      = (mjpeg_source_stream_off s).2 ∧
    (mjpeg_source_stream_off (mjpeg_source_stream_on s).2).2 = { s with streaming := false } ∧
    ((mjpeg_source_stream_on s).2.framerate = s.framerate ∧
      (mjpeg_source_stream_on s).2.fd = s.fd ∧
      (mjpeg_source_stream_on s).2.jpegBuffer = s.jpegBuffer ∧
      (mjpeg_source_stream_on s).2.jpegMem = s.jpegMem ∧
      (mjpeg_source_stream_on s).2.jpegIndex = s.jpegIndex ∧
      (mjpeg_source_stream_on s).2.count = s.count ∧
      (mjpeg_source_stream_on s).2.data = s.data ∧
      (mjpeg_source_stream_on s).2.start = s.start ∧
      (mjpeg_source_stream_on s).2.tmp = s.tmp ∧
      (mjpeg_source_stream_on s).2.mjpegPipePath = s.mjpegPipePath ∧
      (mjpeg_source_stream_on s).2.mjpegPipeSignalPath = s.mjpegPipeSignalPath ∧
      (mjpeg_source_stream_on s).2.src = s.src) ∧
    (s.streaming = false → (mjpeg_source_stream_off (mjpeg_source_stream_on s).2).2 = s) := by
  refine ⟨rfl, rfl, rfl, rfl, rfl, ⟨rfl, rfl, rfl, rfl, rfl, rfl, rfl, rfl, rfl, rfl, rfl, rfl⟩, ?_⟩
  intro h
  cases s
  simp only at h
  subst h
  rfl

/-- C13: the source that mjpeg_video_source_create returns has the table and
the two paths stored and every other member zero: not streaming, frame rate
0, cursor 0, both counters 0, no scan buffer, no stream, no timestamps; and
mjpeg_source_destroy on it frees the object and nothing else. -/
theorem create_is_zeroed_and_destroy_releases_nothing (p1 p2 : String) :
    (mjpeg_video_source_create p1 p2).src.ops = some "mjpeg_source_ops" ∧
    (mjpeg_video_source_create p1 p2).mjpegPipePath = p1 ∧
    (mjpeg_video_source_create p1 p2).mjpegPipeSignalPath = p2 ∧
    (mjpeg_video_source_create p1 p2).streaming = false ∧
    (mjpeg_video_source_create p1 p2).framerate = 0 ∧
    (mjpeg_video_source_create p1 p2).jpegIndex = 0 ∧
    (mjpeg_video_source_create p1 p2).count = 0 ∧
    (mjpeg_video_source_create p1 p2).data = 0 ∧
    (mjpeg_video_source_create p1 p2).jpegBuffer = 0 ∧
    (mjpeg_video_source_create p1 p2).fd = none ∧
    (mjpeg_video_source_create p1 p2).start = 0 ∧
    (mjpeg_video_source_create p1 p2).tmp = 0 ∧
    (mjpeg_video_source_create p1 p2).src.events = 0 ∧
    mjpeg_source_destroy (mjpeg_video_source_create p1 p2) = [Release.freeSource] := by
  refine ⟨rfl, rfl, rfl, rfl, rfl, rfl, rfl, rfl, rfl, rfl, rfl, rfl, rfl, ?_⟩
  simp [mjpeg_source_destroy, mjpeg_video_source_create]

/-! ## The window of the scan -/

/-- A call that produces a frame: it has read some number n of entries of the
stream, at least one, and found the terminator at an offset e inside the
window of the last read. -/
theorem readFrameLoop_produced_facts (objTail : Mem) (buf : video_buffer) :
    ∀ (fp : FILE) (s : mjpeg_source),
      (readFrameLoop objTail s buf fp).produced = true →
      ∃ n rest e, 1 ≤ n ∧ fp.length = n + rest.length ∧
        (readFrameLoop objTail s buf fp).src.fd = some rest ∧
        (readFrameLoop objTail s buf fp).buf.bytesused = e + 1 ∧
        scanStart (s.jpegIndex + 256 * (n - 1)) < e ∧
        e < s.jpegIndex + 256 * n ∧
        (readFrameLoop objTail s buf fp).src.jpegIndex = s.jpegIndex + 256 * n - (e + 1) := by
  intro fp
  induction fp with
  | nil =>
    intro s h
    rw [readFrameLoop_nil] at h
    simp at h
  | cons r rest ih =>
    intro s h
    by_cases hshort : r.length < 256
    · rw [readFrameLoop_short objTail s buf r rest (by simpa [BUFFER_SIZE] using hshort)] at h
      simp at h
    · have htake : (r.take 256).length = 256 := by
        rw [List.length_take]; omega
      have hsame : readFrameLoop objTail s buf (r :: rest)
          = readFrameLoop objTail s buf (r.take 256 :: rest) := by
        simp only [readFrameLoop, BUFFER_SIZE, List.take_take, Nat.min_self]
        rw [if_neg hshort, htake, if_neg (by omega : ¬ (256 < 256))]
      rw [hsame] at h ⊢
      by_cases hf : findEof (writeBytes s.jpegMem s.jpegIndex (r.take 256))
          (s.jpegIndex + 256) (scanStart s.jpegIndex) = 0
      · rw [readFrameLoop_miss objTail s buf _ rest htake hf] at h ⊢
        obtain ⟨n, rest2, e, h1, h2, h3, h4, h5, h6, h7⟩ := ih _ h
        simp only at h5 h6 h7
        refine ⟨n + 1, rest2, e, by omega, by rw [List.length_cons, h2]; omega, h3, h4, ?_, ?_, ?_⟩
        · rw [show s.jpegIndex + 256 * (n + 1 - 1) = s.jpegIndex + 256 + 256 * (n - 1) by omega]
          exact h5
        · omega
        · rw [h7]; omega
      · rw [readFrameLoop_found objTail s buf _ rest htake hf]
        obtain ⟨a, b, _, _⟩ := findEof_pos hf
        refine ⟨1, rest, _, le_refl _, by rw [List.length_cons]; omega, ?_, rfl, ?_, ?_, ?_⟩
        · rw [extractFrame_fd]
        · simpa using a
        · simpa using b
        · rw [extractFrame_jpegIndex]

/-- C17, as the code behaves: a call that produces a frame, from any state,
has read n entries of the stream, at least one; it leaves at most 264 bytes
carried over, and the reported length is at least 2 and at most the cursor at
entry plus 256 n, which is the cursor at the read that found the terminator
plus 256. -/
theorem carry_over_bound (objTail : Mem) (buf : video_buffer) (fp : FILE) (s : mjpeg_source)
    (hp : (readFrameLoop objTail s buf fp).produced = true) :
    (readFrameLoop objTail s buf fp).src.jpegIndex ≤ 264 ∧
    2 ≤ (readFrameLoop objTail s buf fp).buf.bytesused ∧
    ∃ n rest, 1 ≤ n ∧ fp.length = n + rest.length ∧
      (readFrameLoop objTail s buf fp).src.fd = some rest ∧
      (readFrameLoop objTail s buf fp).buf.bytesused ≤ s.jpegIndex + 256 * n ∧
      s.jpegIndex + 256 * (n - 1) < (readFrameLoop objTail s buf fp).buf.bytesused + 9 ∧
      (readFrameLoop objTail s buf fp).src.jpegIndex + (readFrameLoop objTail s buf fp).buf.bytesused
        = s.jpegIndex + 256 * n := by
  obtain ⟨n, rest, e, h1, h2, h3, h4, h5, h6, h7⟩ := readFrameLoop_produced_facts objTail buf fp s hp
  have hlb := scanStart_lookback (s.jpegIndex + 256 * (n - 1))
  refine ⟨by rw [h7]; omega, by rw [h4]; omega, n, rest, h1, h2, h3, by rw [h4]; omega,
    by rw [h4]; omega, by rw [h7, h4]; omega⟩

/-- C17 at a concrete input: the chunk that starts with a four-byte image, read
at cursor 0. -/
theorem carry_over_bound_witness :
    (readFrameLoop (fun _ => 0) readySource emptyBuffer [tinyImageChunk]).src.jpegIndex ≤ 264 ∧
    2 ≤ (readFrameLoop (fun _ => 0) readySource emptyBuffer [tinyImageChunk]).buf.bytesused := by
  have h := carry_over_bound (fun _ => 0) emptyBuffer [tinyImageChunk] readySource (by decide!)
  exact ⟨h.1, h.2.1⟩

/-- C17 as stated fails for a call that reads more than one chunk: on the
fresh source, whose cursor is 0, the call that produces the frame of 5000
bytes reports the length 5000, more than the cursor at entry plus 256. -/
theorem frame_longer_than_a_chunk :
    freshSource.jpegIndex = 0 ∧
    ∃ r, mjpeg_source_fill_buffer (envWith channel5300) freshSource emptyBuffer = Except.ok r ∧
      r.produced = true ∧ r.buf.bytesused = 5000 ∧ r.src.jpegIndex ≤ 264 ∧
      ¬ (r.buf.bytesused ≤ freshSource.jpegIndex + 256) := by
  obtain ⟨r, f0, f1, f2, f3, _, _⟩ := first_call_cuts_frame (envWith channel5300) emptyBuffer
    "/tmp/mjpeg" "/tmp/mjpeg.signal" (zeroFrame 4998) (List.replicate 120 7) full5120 [tail180]
    rfl rfl full5120_full (zeroFrame_wellFormed 4998) full5120_flatten
  have e3 : 256 * ((4998 + 2 - 1) / 256 + 1) - (4998 + 2) = 120 := by decide
  rw [zeroFrame_length] at f2 f3
  rw [e3] at f3
  refine ⟨rfl, r, f0, f1, f2, by rw [f3]; decide, ?_⟩
  rw [f2]
  decide

/-! ## Where a frame is cut -/

/-- C14, as the code behaves: when the scan after a read at cursor c finds the
terminator at offset e, the reported length is e + 1 and e is the smallest
index above the start of the scan, c - 10, at which a terminator ends; it is
the smallest such index from 1 on when no terminator ends at or below the
start of the scan. -/
theorem frame_cut_at_first_terminator_of_window (objTail : Mem) (s : mjpeg_source)
    (buf : video_buffer) (r : List Nat) (rest : FILE) (e : Nat) (hr : r.length = 256)
    (he : findEof (writeBytes s.jpegMem s.jpegIndex r) (s.jpegIndex + 256)
      (scanStart s.jpegIndex) = e)
    (h0 : e ≠ 0) :
    (readFrameLoop objTail s buf (r :: rest)).produced = true ∧
    (readFrameLoop objTail s buf (r :: rest)).buf.bytesused = e + 1 ∧
    scanStart s.jpegIndex < e ∧ e < s.jpegIndex + 256 ∧
    eoiAt (writeBytes s.jpegMem s.jpegIndex r) e ∧
    (∀ i, scanStart s.jpegIndex < i → i < e → ¬ eoiAt (writeBytes s.jpegMem s.jpegIndex r) i) ∧
    ((∀ i, 1 ≤ i → i ≤ scanStart s.jpegIndex → ¬ eoiAt s.jpegMem i) →
      ∀ i, 1 ≤ i → i < e → ¬ eoiAt (writeBytes s.jpegMem s.jpegIndex r) i) := by
  have hf : findEof (writeBytes s.jpegMem s.jpegIndex r) (s.jpegIndex + 256)
      (scanStart s.jpegIndex) ≠ 0 := by rw [he]; exact h0
  obtain ⟨a, b, c, d⟩ := findEof_pos hf
  rw [he] at a b c d
  have hle : scanStart s.jpegIndex ≤ s.jpegIndex := by
    unfold scanStart; split <;> omega
  rw [readFrameLoop_found objTail s buf r rest hr hf, he]
  refine ⟨rfl, rfl, a, b, c, d, ?_⟩
  intro hlow i h1 h2
  by_cases hi : i ≤ scanStart s.jpegIndex
  · intro h3
    by_cases hic : i < s.jpegIndex
    · exact hlow i h1 hi
        ((eoiAt_congr (writeBytes_below (by omega)) (writeBytes_below hic)).1 h3)
    · have h00 : s.jpegIndex = 0 := by
        unfold scanStart at hi
        split at hi <;> omega
      have : scanStart s.jpegIndex = 0 := by rw [h00]; rfl
      omega
  · exact d i (by omega) h2

/-- C14 at a concrete input: the chunk that starts with a four-byte image, read
at cursor 0. -/
theorem frame_cut_at_first_terminator_of_window_witness :
    (readFrameLoop (fun _ => 0) readySource emptyBuffer [tinyImageChunk]).produced = true ∧
    (readFrameLoop (fun _ => 0) readySource emptyBuffer [tinyImageChunk]).buf.bytesused
      = 3 + 1 := by
  have h := frame_cut_at_first_terminator_of_window (fun _ => 0) readySource emptyBuffer
    tinyImageChunk [] 3 (by decide!) (by decide!) (by decide)
  exact ⟨h.1, h.2.1⟩

/-- C14 as stated fails: with the frames of 100, 100 and 312 bytes delivered
as two chunks, the first call on the fresh source leaves 156 bytes carried
over, which hold the second frame; in the second call the staged bytes have a
terminator ending at index 99, yet the frame is cut at offset 411 and has 412
bytes: the second and the third frame are merged. -/
theorem carried_over_frame_is_merged :
    ∃ r1, mjpeg_source_fill_buffer (envWith channel512) freshSource emptyBuffer
        = Except.ok r1 ∧
      r1.produced = true ∧ r1.buf.bytesused = 100 ∧ r1.src.jpegIndex = 156 ∧
      r1.src.fd = some [chunk512b] ∧
      eoiAt (writeBytes r1.src.jpegMem 156 chunk512b) 99 ∧
      findEof (writeBytes r1.src.jpegMem 156 chunk512b) (156 + 256) (scanStart 156) = 411 ∧
      ∃ r2, mjpeg_source_fill_buffer (envWith channel512) r1.src r1.buf = Except.ok r2 ∧
        r2.produced = true ∧ r2.buf.bytesused = 412 := by
  refine ⟨_, fill_buffer_first _ _ _ channel512 rfl rfl rfl, by decide!, by decide!, by decide!,
    by decide!, by decide!, by decide!, ?_⟩
  refine ⟨_, fill_buffer_open _ _ _ [chunk512b] (by decide!), by decide!, by decide!⟩

/-! ## The account of the bytes -/

theorem memSlice_congr {m1 m2 : Mem} {n : Nat} (h : ∀ j, j < n → m1 j = m2 j) :
    memSlice m1 n = memSlice m2 n := by
  unfold memSlice
  apply List.map_congr_left
  intro j hj
  exact h j (List.mem_range.1 hj)

theorem memSlice_add (m : Mem) (a b : Nat) :
    memSlice m (a + b) = memSlice m a ++ memSlice (fun j => m (a + j)) b := by
  unfold memSlice
  rw [List.range_add, List.map_append, List.map_map]
  rfl

theorem memSlice_list (l : List Nat) : memSlice (fun j => l.getD j 0) l.length = l := by
  unfold memSlice
  apply List.ext_getElem
  · simp
  · intro i h1 h2
    simp only [List.getElem_map, List.getElem_range]
    exact List.getD_eq_getElem _ _ h2

/-- The bytes below the end of a chunk just stored are the staged bytes
followed by the chunk. -/
theorem memSlice_writeBytes (m : Mem) (c : Nat) (ch : List Nat) :
    memSlice (writeBytes m c ch) (c + ch.length) = memSlice m c ++ ch := by
  rw [memSlice_add]
  congr 1
  · exact memSlice_congr (fun j hj => writeBytes_below hj)
  · rw [← memSlice_list ch]
    simp only [memSlice_list]
    refine (memSlice_congr ?_).trans (memSlice_list ch)
    intro j hj
    rw [writeBytes_inside (by omega) (by omega)]
    congr 1
    omega

theorem memSlice_length (m : Mem) (n : Nat) : (memSlice m n).length = n := by
  simp [memSlice]

/-- One call: what is cut followed by what is staged afterwards is what was
staged before followed by what the call has stored; a slice is cut exactly
when a frame is produced, and its length is the reported length. -/
theorem readFrameTrace_account (objTail : Mem) (buf : video_buffer) :
    ∀ (fp : FILE) (s : mjpeg_source),
      (readFrameTrace s fp).1.getD [] ++ staged (readFrameLoop objTail s buf fp).src
        = staged s ++ (readFrameTrace s fp).2 ∧
      (readFrameTrace s fp).1.isSome = (readFrameLoop objTail s buf fp).produced ∧
      (∀ c, (readFrameTrace s fp).1 = some c →
        c.length = (readFrameLoop objTail s buf fp).buf.bytesused) ∧
      (readFrameLoop objTail s buf fp).src.fd.isSome = true := by
  intro fp
  induction fp with
  | nil =>
    intro s
    refine ⟨?_, rfl, ?_, rfl⟩
    · simp [readFrameTrace, readFrameLoop, staged]
    · intro c hc
      simp [readFrameTrace] at hc
  | cons r rest ih =>
    intro s
    by_cases hshort : r.length < 256
    · have e1 : readFrameTrace s (r :: rest) = (none, []) := by
        simp only [readFrameTrace, BUFFER_SIZE]
        rw [if_pos hshort]
      rw [e1, readFrameLoop_short objTail s buf r rest (by simpa [BUFFER_SIZE] using hshort)]
      refine ⟨?_, rfl, ?_, rfl⟩
      · simp only [Option.getD_none, List.nil_append, List.append_nil, staged]
        exact memSlice_congr (fun j hj => writeBytes_below hj)
      · intro c hc
        simp at hc
    · have htake : (r.take 256).length = 256 := by
        rw [List.length_take]; omega
      have hsame : readFrameLoop objTail s buf (r :: rest)
          = readFrameLoop objTail s buf (r.take 256 :: rest) := by
        simp only [readFrameLoop, BUFFER_SIZE, List.take_take, Nat.min_self]
        rw [if_neg hshort, htake, if_neg (by omega : ¬ (256 < 256))]
      have hstore : memSlice (writeBytes s.jpegMem s.jpegIndex (r.take 256)) (s.jpegIndex + 256)
          = staged s ++ r.take 256 := by
        have := memSlice_writeBytes s.jpegMem s.jpegIndex (r.take 256)
        rw [htake] at this
        exact this
      rw [hsame]
      by_cases hf : findEof (writeBytes s.jpegMem s.jpegIndex (r.take 256))
          (s.jpegIndex + 256) (scanStart s.jpegIndex) = 0
      · have e1 : readFrameTrace s (r :: rest)
            = ((readFrameTrace
                { s with jpegMem := writeBytes s.jpegMem s.jpegIndex (r.take 256),
                         fd := some rest, jpegIndex := s.jpegIndex + 256 } rest).1,
               r.take 256 ++ (readFrameTrace
                { s with jpegMem := writeBytes s.jpegMem s.jpegIndex (r.take 256),
                         fd := some rest, jpegIndex := s.jpegIndex + 256 } rest).2) := by
          simp only [readFrameTrace, BUFFER_SIZE]
          rw [if_neg hshort, if_neg (by simp [hf])]
        have e2 : readFrameLoop objTail s buf (r.take 256 :: rest)
            = readFrameLoop objTail
                { s with jpegMem := writeBytes s.jpegMem s.jpegIndex (r.take 256),
                         fd := some rest, jpegIndex := s.jpegIndex + 256 } buf rest := by
          simp only [readFrameLoop, BUFFER_SIZE, List.take_take, Nat.min_self]
          rw [htake, if_neg (by omega : ¬ (256 < 256)), if_neg (by simp [hf])]
        obtain ⟨a, b, c, d⟩ := ih
          { s with jpegMem := writeBytes s.jpegMem s.jpegIndex (r.take 256),
                   fd := some rest, jpegIndex := s.jpegIndex + 256 }
        rw [e1, e2]
        refine ⟨?_, b, c, d⟩
        simp only
        rw [a, ← List.append_assoc, ← hstore]
        rfl
      · have e1 : readFrameTrace s (r :: rest)
            = (some (memSlice (writeBytes s.jpegMem s.jpegIndex (r.take 256))
                (findEof (writeBytes s.jpegMem s.jpegIndex (r.take 256))
                  (s.jpegIndex + 256) (scanStart s.jpegIndex) + 1)), r.take 256) := by
          simp only [readFrameTrace, BUFFER_SIZE]
          rw [if_neg hshort, if_pos hf]
        obtain ⟨_, hlt, _, _⟩ := findEof_pos hf
        rw [e1, readFrameLoop_found objTail s buf _ rest htake hf]
        refine ⟨?_, rfl, ?_, ?_⟩
        · simp only [Option.getD_some, staged]
          rw [extractFrame_jpegIndex, extractFrame_jpegMem]
          simp only
          rw [memSlice_congr (fun j hj => memcpyDown_below _ _ _ j hj), ← memSlice_add,
            show memSlice s.jpegMem s.jpegIndex = staged s from rfl, ← hstore]
          congr 1
          omega
        · intro c hc
          simp only [Option.some.injEq] at hc
          rw [← hc, memSlice_length, extractFrame_bytesused]
        · rw [extractFrame_fd]
          rfl

theorem loopEntry_open (env : Env) (s : mjpeg_source) (fp : FILE) (h : s.fd = some fp) :
    loopEntry env s = some (s, fp) := by
  simp [loopEntry, h]

theorem loopEntry_first (env : Env) (s : mjpeg_source) (fp : FILE)
    (hs : s.fd = none) (hw : env.signalWritable = true) (hp : env.pipe = some fp) :
    loopEntry env s = some
      ({ s with jpegBuffer := env.bufAddr, jpegMem := env.bufInit, start := env.startAddr,
                tmp := env.tmpAddr, fd := some fp }, fp) := by
  simp [loopEntry, hs, setUp_ok env s fp hw hp]

/-! ## The calls with their faults -/

theorem readFrameChecked_nil (copyLimit : Nat) (objTail : Mem) (s : mjpeg_source)
    (buf : video_buffer) :
    readFrameChecked copyLimit objTail s buf [] = Except.ok (readFrameLoop objTail s buf []) :=
  rfl

/-- The value of the field fd at entry does not matter to the checked loop
either. -/
theorem readFrameChecked_fd (copyLimit : Nat) (objTail : Mem) (buf : video_buffer) (fp : FILE)
    (s : mjpeg_source) (x : Option FILE) :
    readFrameChecked copyLimit objTail { s with fd := x } buf fp
      = readFrameChecked copyLimit objTail s buf fp := by
  cases fp with
  | nil => rfl
  | cons r rest => rfl

/-- A result of the checked loop is the result of readFrameLoop. -/
theorem readFrameChecked_ok (copyLimit : Nat) (objTail : Mem) (buf : video_buffer) :
    ∀ (fp : FILE) (s : mjpeg_source) (r : ReadResult),
      readFrameChecked copyLimit objTail s buf fp = Except.ok r →
      r = readFrameLoop objTail s buf fp := by
  intro fp
  induction fp with
  | nil =>
    intro s r h
    rw [readFrameChecked_nil] at h
    exact (Except.ok.inj h).symm
  | cons x rest ih =>
    intro s r h
    simp only [readFrameChecked, readFrameLoop] at h ⊢
    split at h
    · exact absurd h (by simp)
    · split at h
      · rename_i h1
        rw [if_pos h1]
        exact (Except.ok.inj h).symm
      · rename_i h1
        rw [if_neg h1]
        split at h
        · rename_i h2
          rw [if_pos h2]
          split at h
          · exact absurd h (by simp)
          · exact (Except.ok.inj h).symm
        · rename_i h2
          rw [if_neg h2]
          exact ih _ _ h

/-- The stream left by a call is a part of the stream it was given. -/
theorem readFrameLoop_fd_length (objTail : Mem) (buf : video_buffer) :
    ∀ (fp : FILE) (s : mjpeg_source),
      ∃ rest, (readFrameLoop objTail s buf fp).src.fd = some rest ∧ rest.length ≤ fp.length := by
  intro fp
  induction fp with
  | nil => intro s; exact ⟨[], rfl, le_refl _⟩
  | cons x rest ih =>
    intro s
    simp only [readFrameLoop]
    split
    · exact ⟨rest, rfl, by simp⟩
    · split
      · exact ⟨rest, by rw [extractFrame_fd], by simp⟩
      · obtain ⟨r2, h1, h2⟩ := ih
          { s with jpegMem := writeBytes s.jpegMem s.jpegIndex (x.take BUFFER_SIZE),
                   fd := some rest, jpegIndex := s.jpegIndex + BUFFER_SIZE }
        exact ⟨r2, h1, by simp; omega⟩

/-- When every read of a call stays below the capacity and the frame it
produces, if any, is no longer than what can be read at line 180, the checked
loop returns, with the result of readFrameLoop. The reads of the call are as
many as the entries it takes from the stream. -/
theorem readFrameChecked_of_bounds (copyLimit : Nat) (objTail : Mem) (buf : video_buffer) :
    ∀ (fp : FILE) (s : mjpeg_source) (rest : FILE),
      (readFrameLoop objTail s buf fp).src.fd = some rest →
      s.jpegIndex + 256 * (fp.length - rest.length) ≤ SCAN_CAPACITY →
      ((readFrameLoop objTail s buf fp).produced = true →
        (readFrameLoop objTail s buf fp).buf.bytesused ≤ copyLimit) →
      readFrameChecked copyLimit objTail s buf fp
        = Except.ok (readFrameLoop objTail s buf fp) := by
  intro fp
  induction fp with
  | nil => intro s rest _ _ _; rfl
  | cons x xs ih =>
    intro s rest hfd hcap hcopy
    obtain ⟨rest2, hfd2, hle⟩ := readFrameLoop_fd_length objTail buf (x :: xs) s
    have hrest : rest2 = rest := Option.some.inj (hfd2.symm.trans hfd)
    subst hrest
    have hlen : (x.take BUFFER_SIZE).length ≤ 256 := by
      rw [List.length_take]; exact Nat.min_le_left _ _
    simp only [readFrameChecked, readFrameLoop] at hfd hcopy ⊢
    by_cases hshort : x.length < BUFFER_SIZE
    · rw [if_pos hshort] at hfd ⊢
      have e : rest2 = xs := (Option.some.inj hfd).symm
      rw [e, List.length_cons] at hcap
      rw [if_neg (by omega), if_pos hshort]
    · rw [if_neg hshort] at hfd hcopy ⊢
      by_cases hf : findEof (writeBytes s.jpegMem s.jpegIndex (x.take BUFFER_SIZE))
          (s.jpegIndex + BUFFER_SIZE) (scanStart s.jpegIndex) ≠ 0
      · rw [if_pos hf] at hfd hcopy ⊢
        rw [extractFrame_fd] at hfd
        have e : rest2 = xs := (Option.some.inj hfd).symm
        rw [e, List.length_cons] at hcap
        have hb := hcopy rfl
        rw [extractFrame_bytesused] at hb
        rw [if_neg (by omega), if_neg hshort, if_pos hf, if_neg (by omega)]
      · rw [if_neg hf] at hfd hcopy ⊢
        obtain ⟨r3, h3, hle3⟩ := readFrameLoop_fd_length objTail buf xs
          { s with jpegMem := writeBytes s.jpegMem s.jpegIndex (x.take BUFFER_SIZE),
                   fd := some xs, jpegIndex := s.jpegIndex + BUFFER_SIZE }
        have e : r3 = rest2 := Option.some.inj (h3.symm.trans hfd)
        subst e
        rw [List.length_cons] at hcap
        have hB : BUFFER_SIZE = 256 := rfl
        rw [if_neg (by omega), if_neg hshort, if_neg hf]
        exact ih _ r3 hfd (by simp only [hB]; omega) hcopy

theorem fill_buffer_checked_first (copyLimit : Nat) (env : Env) (s : mjpeg_source)
    (buf : video_buffer) (fp : FILE) (r : ReadResult)
    (hs : s.fd = none) (hw : env.signalWritable = true) (hp : env.pipe = some fp)
    (hr : readFrameChecked copyLimit env.objTail
      { s with jpegBuffer := env.bufAddr, jpegMem := env.bufInit, start := env.startAddr,
               tmp := env.tmpAddr, fd := some fp } buf fp = Except.ok r) :
    mjpeg_source_fill_buffer_checked copyLimit env s buf
      = Except.ok { r with out := [Msg.setUpLine] ++ r.out } := by
  simp only [mjpeg_source_fill_buffer_checked, hs, setUp_ok env s fp hw hp, hr]

theorem fill_buffer_checked_open (copyLimit : Nat) (env : Env) (s : mjpeg_source)
    (buf : video_buffer) (fp : FILE) (hs : s.fd = some fp) :
    mjpeg_source_fill_buffer_checked copyLimit env s buf
      = readFrameChecked copyLimit env.objTail s buf fp := by
  simp only [mjpeg_source_fill_buffer_checked, hs]

/-! ## Sequences of frames: the calls -/

theorem fillReports_zero (copyLimit : Nat) (env : Env) (s : mjpeg_source) (buf : video_buffer) :
    fillReports copyLimit env 0 s buf = some [] := rfl

theorem fillReports_succ (copyLimit : Nat) (env : Env) (n : Nat) (s : mjpeg_source)
    (buf : video_buffer) (r : ReadResult)
    (h : mjpeg_source_fill_buffer_checked copyLimit env s buf = Except.ok r) :
    fillReports copyLimit env (n + 1) s buf
      = (fillReports copyLimit env n r.src r.buf).map
          (fun l => (r.produced, r.buf.bytesused) :: l) := by
  unfold fillReports
  simp only [fillMany, h]
  cases fillMany copyLimit env n r.src r.buf <;> rfl

/-- A call that cuts the next frame returns when the frame fits what can be
read at line 180 and, with the bytes carried over, the scan buffer. -/
theorem readFrameChecked_cuts_next_frame (copyLimit : Nat) (objTail : Mem) (buf : video_buffer)
    (s : mjpeg_source) (fp fp2 : FILE) (f : List Nat) (restLen : Nat)
    (hlen : s.jpegIndex + 256 * fp.length = f.length + restLen)
    (g2 : (readFrameLoop objTail s buf fp).buf.bytesused = f.length)
    (g3 : (readFrameLoop objTail s buf fp).src.fd = some fp2)
    (g5 : (readFrameLoop objTail s buf fp).src.jpegIndex ≤ 255)
    (g6 : (readFrameLoop objTail s buf fp).src.jpegIndex + 256 * fp2.length = restLen)
    (hread : f.length ≤ copyLimit) (hcap : f.length + 255 ≤ SCAN_CAPACITY) :
    readFrameChecked copyLimit objTail s buf fp
      = Except.ok (readFrameLoop objTail s buf fp) := by
  apply readFrameChecked_of_bounds copyLimit objTail buf fp s fp2 g3
  · have hC : SCAN_CAPACITY = 2097152 := rfl
    obtain ⟨rest, hrest, hle⟩ := readFrameLoop_fd_length objTail buf fp s
    rw [g3] at hrest
    cases hrest
    rw [hC] at hcap ⊢
    omega
  · intro _
    rw [g2]
    exact hread

/-- Calls on a source with an open stream whose staged bytes and coming chunks
are the bytes of the frames of a list, each at least 256 bytes long and
within the two bounds: one frame per call, then a call without a frame. -/
theorem fillReports_frames (copyLimit : Nat) (env : Env) :
    ∀ (frames : List (List Nat)) (s : mjpeg_source) (buf : video_buffer) (fp : FILE),
      s.fd = some fp →
      (∀ r ∈ fp, r.length = 256) →
      s.jpegIndex ≤ 255 →
      s.jpegIndex + 256 * fp.length = frames.flatten.length →
      (∀ j, j < frames.flatten.length →
        writeBytes s.jpegMem s.jpegIndex fp.flatten j = listMem frames.flatten j) →
      (∀ f ∈ frames, wellFormedFrame f ∧ 256 ≤ f.length ∧ f.length ≤ copyLimit ∧
        f.length + 255 ≤ SCAN_CAPACITY) →
      fillReports copyLimit env (frames.length + 1) s buf
        = some (frames.map (fun f => (true, f.length))
            ++ [(false, (frames.map List.length).getLastD buf.bytesused)]) := by
  intro frames
  induction frames with
  | nil =>
    intro s buf fp hfd hfull _ hlen _ _
    have hnil : fp = [] := full_flatten_nil fp hfull (by
      simp only [List.flatten_nil, List.length_nil] at hlen
      omega)
    subst hnil
    show fillReports copyLimit env (0 + 1) s buf = _
    rw [fillReports_succ copyLimit env 0 s buf (readFrameLoop env.objTail s buf [])
      (by rw [fill_buffer_checked_open copyLimit env s buf [] hfd, readFrameChecked_nil]),
      fillReports_zero]
    rfl
  | cons f rest ih =>
    intro s buf fp hfd hfull hc hlen hmem hframes
    rw [List.flatten_cons, List.length_append] at hlen hmem
    obtain ⟨hwf, h256, hread, hcap⟩ := hframes f (List.mem_cons_self _ _)
    obtain ⟨g1, g2, fp2, g3, g4, g5, g6, g7⟩ := readFrameLoop_cuts_next_frame env.objTail buf s
      fp f rest.flatten hfull hc hlen hmem hwf h256
    rw [List.length_cons,
      fillReports_succ copyLimit env (rest.length + 1) s buf (readFrameLoop env.objTail s buf fp)
        (by
          rw [fill_buffer_checked_open copyLimit env s buf fp hfd]
          exact readFrameChecked_cuts_next_frame copyLimit env.objTail buf s fp fp2 f _ hlen
            g2 g3 g5 g6 hread hcap),
      ih _ _ fp2 g3 g4 g5 g6 g7 (fun x hx => hframes x (List.mem_cons_of_mem _ hx)), g1, g2]
    rw [getLastD_lengths]
    rfl

/-- C1, as the code behaves: for frames that each hold the terminator only as
their last two bytes, are each at least 256 bytes long, no longer than what
can be read at line 180 and, with 255 bytes carried over, no longer than the
scan buffer, delivered as full chunks of 256 bytes, the calls on a fresh
source return and produce one frame per call, with the reported lengths of
the frames in their order, and the call after the last frame produces none. -/
theorem frames_of_a_chunk_or_more (copyLimit : Nat) (env : Env) (buf : video_buffer)
    (p1 p2 : String) (frames : List (List Nat)) (fp : FILE)
    (hw : env.signalWritable = true) (hp : env.pipe = some fp)
    (hfull : ∀ r ∈ fp, r.length = 256)
    (hdata : fp.flatten = frames.flatten)
    (hframes : ∀ f ∈ frames, wellFormedFrame f ∧ 256 ≤ f.length ∧ f.length ≤ copyLimit ∧
      f.length + 255 ≤ SCAN_CAPACITY) :
    fillReports copyLimit env (frames.length + 1) (mjpeg_video_source_create p1 p2) buf
      = some (frames.map (fun f => (true, f.length))
          ++ [(false, (frames.map List.length).getLastD buf.bytesused)]) := by
  have hlen : 256 * fp.length = frames.flatten.length := by
    rw [← flatten_length_full fp hfull, hdata]
  cases frames with
  | nil =>
    have hnil : fp = [] := full_flatten_nil fp hfull (by
      simp only [List.flatten_nil, List.length_nil] at hlen
      omega)
    subst hnil
    show fillReports copyLimit env (0 + 1) _ buf = _
    rw [fillReports_succ copyLimit env 0 _ buf _
      (fill_buffer_checked_first copyLimit env (mjpeg_video_source_create p1 p2) buf [] _ rfl hw hp
        (readFrameChecked_nil _ _ _ _)), fillReports_zero]
    rfl
  | cons f rest =>
    rw [List.flatten_cons, List.length_append] at hlen
    obtain ⟨hwf, h256, hread, hcap⟩ := hframes f (List.mem_cons_self _ _)
    obtain ⟨g1, g2, fp2, g3, g4, g5, g6, g7⟩ := readFrameLoop_cuts_next_frame env.objTail buf
      { mjpeg_video_source_create p1 p2 with
        jpegBuffer := env.bufAddr, jpegMem := env.bufInit, start := env.startAddr,
        tmp := env.tmpAddr, fd := some fp }
      fp f rest.flatten hfull (Nat.zero_le _)
      (by
        show 0 + 256 * fp.length = f.length + rest.flatten.length
        omega)
      (by
        intro j hj
        show writeBytes env.bufInit 0 fp.flatten j = listMem (f ++ rest.flatten) j
        rw [writeBytes_zero_listMem _ _ _ (by rw [flatten_length_full fp hfull]; omega), hdata,
          List.flatten_cons])
      hwf h256
    have hchk := readFrameChecked_cuts_next_frame copyLimit env.objTail buf
      { mjpeg_video_source_create p1 p2 with
        jpegBuffer := env.bufAddr, jpegMem := env.bufInit, start := env.startAddr,
        tmp := env.tmpAddr, fd := some fp }
      fp fp2 f rest.flatten.length
      (by
        show 0 + 256 * fp.length = f.length + rest.flatten.length
        omega)
      g2 g3 g5 g6 hread hcap
    rw [List.length_cons, fillReports_succ copyLimit env (rest.length + 1) _ buf _
      (fill_buffer_checked_first copyLimit env (mjpeg_video_source_create p1 p2) buf fp _ rfl hw hp
        hchk)]
    simp only
    rw [fillReports_frames copyLimit env rest _ _ fp2 g3 g4 g5 g6 g7
      (fun x hx => hframes x (List.mem_cons_of_mem _ hx)), g1, g2]
    rw [getLastD_lengths]
    rfl

/-- C1 at a concrete input: two frames of 256 and 512 bytes in three chunks,
with 4096 bytes that the copy of line 180 can move. -/
theorem frames_of_a_chunk_or_more_witness :
    fillReports 4096 (envWith channel768) (longFrames.length + 1)
        (mjpeg_video_source_create "/tmp/mjpeg" "/tmp/mjpeg.signal") emptyBuffer
      = some (longFrames.map (fun f => (true, f.length))
          ++ [(false, (longFrames.map List.length).getLastD emptyBuffer.bytesused)]) :=
  frames_of_a_chunk_or_more 4096 (envWith channel768) emptyBuffer "/tmp/mjpeg"
    "/tmp/mjpeg.signal" longFrames channel768 rfl rfl (by decide!) (by decide!)
    (by
      intro f hf
      simp only [longFrames, List.mem_cons, List.mem_singleton, List.not_mem_nil, or_false] at hf
      have hC : SCAN_CAPACITY = 2097152 := rfl
      rcases hf with h | h <;> subst h
      · exact ⟨zeroFrame_wellFormed 254, by rw [zeroFrame_length], by rw [zeroFrame_length]; omega,
          by rw [zeroFrame_length, hC]; omega⟩
      · exact ⟨zeroFrame_wellFormed 510, by rw [zeroFrame_length]; omega,
          by rw [zeroFrame_length]; omega, by rw [zeroFrame_length, hC]; omega⟩)

/-- C1 as stated fails: three frames of 100, 100 and 312 bytes, each with the
terminator only as its last two bytes, delivered as two chunks of 256 bytes,
give two frames in three calls on the fresh source, of reported lengths 100
and 412; the third call produces none. No call faults: the copy of line 180
can move 4096 bytes and the stores stay inside the scan buffer. -/
theorem short_frames_are_merged :
    (∀ f ∈ shortFrames, wellFormedFrame f) ∧
    shortFrames.map List.length = [100, 100, 312] ∧
    (∀ r ∈ channel512, r.length = 256) ∧
    channel512.flatten = shortFrames.flatten ∧
    fillReports 4096 (envWith channel512) 3 freshSource emptyBuffer
      = some [(true, 100), (true, 412), (false, 412)] := by
  refine ⟨?_, by decide!, by decide!, by decide!, by decide!⟩
  intro f hf
  simp only [shortFrames, List.mem_cons, List.mem_singleton, List.not_mem_nil, or_false] at hf
  rcases hf with h | h | h <;> subst h <;> exact zeroFrame_wellFormed _

/-! ## The cursor at the reads of a call -/

/-- C5, as the code behaves: the code has no capacity check, and the cursor at
a read is bounded only by the number of chunks stored since the last frame. In
a call of readFrame entered with the cursor c, there is at least one read and
at most one more than the stream holds, and the read number i (from 0) is made
at the cursor c + 256 i. When c is at most 264 + 256 n, the cursor at read
number i is at most 264 + 256 (n + i), and the cursor plus 256 is within the
2 MiB of the scan buffer when n + i is at most 8189. A call that returns with
a frame leaves the cursor at most 264 (n is 0 again), and a call that returns
without one leaves it at c + 256 k, for k the number of reads before the last
one, the chunks it has stored (n becomes n + k). -/
theorem cursor_bounded_by_chunks_stored (copyLimit : Nat) (objTail : Mem) (buf : video_buffer)
    (fp : FILE) (s : mjpeg_source) (n : Nat) (h : s.jpegIndex ≤ 264 + 256 * n) :
    (1 ≤ (readCursors s fp).length ∧ (readCursors s fp).length ≤ fp.length + 1) ∧
    (∀ i c, (readCursors s fp)[i]? = some c →
      c = s.jpegIndex + 256 * i ∧ c ≤ 264 + 256 * (n + i) ∧
      (n + i ≤ 8189 → c + BUFFER_SIZE ≤ SCAN_CAPACITY)) ∧
    (∀ r, readFrameChecked copyLimit objTail s buf fp = Except.ok r →
      (r.produced = true → r.src.jpegIndex ≤ 264) ∧
      (r.produced = false →
        r.src.jpegIndex = s.jpegIndex + 256 * ((readCursors s fp).length - 1) ∧
        r.src.jpegIndex ≤ 264 + 256 * (n + ((readCursors s fp).length - 1)))) := by
  have key : ∀ (fp : FILE) (s : mjpeg_source),
      (1 ≤ (readCursors s fp).length ∧ (readCursors s fp).length ≤ fp.length + 1) ∧
      (∀ i c, (readCursors s fp)[i]? = some c → c = s.jpegIndex + 256 * i) ∧
      (∀ r, readFrameChecked copyLimit objTail s buf fp = Except.ok r →
        (r.produced = true → r.src.jpegIndex ≤ 264) ∧
        (r.produced = false →
          r.src.jpegIndex = s.jpegIndex + 256 * ((readCursors s fp).length - 1))) := by
    intro fp
    induction fp with
    | nil =>
      intro s
      refine ⟨⟨by simp [readCursors], by simp [readCursors]⟩, ?_, ?_⟩
      · intro i c hc
        cases i with
        | zero =>
          simp only [readCursors, List.getElem?_cons_zero, Option.some.injEq] at hc
          omega
        | succ i => simp [readCursors] at hc
      · intro r hr
        rw [readFrameChecked_nil, readFrameLoop_nil] at hr
        cases hr
        exact ⟨fun hp => by simp at hp, fun _ => by simp [readCursors]⟩
    | cons x rest ih =>
      intro s
      have one : ∀ i c, [s.jpegIndex][i]? = some c → c = s.jpegIndex + 256 * i := by
        intro i c hc
        cases i with
        | zero =>
          simp only [List.getElem?_cons_zero, Option.some.injEq] at hc
          omega
        | succ i => simp at hc
      by_cases h1 : SCAN_CAPACITY < s.jpegIndex + (x.take BUFFER_SIZE).length
      · have e1 : readCursors s (x :: rest) = [s.jpegIndex] := by
          simp only [readCursors]; rw [if_pos h1]
        have e2 : readFrameChecked copyLimit objTail s buf (x :: rest)
            = Except.error Fault.storePastBuffer := by
          simp only [readFrameChecked]; rw [if_pos h1]
        rw [e1, e2]
        exact ⟨⟨by simp, by simp⟩, one, fun r hr => by cases hr⟩
      · by_cases h2 : x.length < BUFFER_SIZE
        · have e1 : readCursors s (x :: rest) = [s.jpegIndex] := by
            simp only [readCursors]; rw [if_neg h1, if_pos h2]
          have e2 : readFrameChecked copyLimit objTail s buf (x :: rest)
              = Except.ok { src := { s with
                    jpegMem := writeBytes s.jpegMem s.jpegIndex (x.take BUFFER_SIZE),
                    fd := some rest }, buf := buf, out := [], produced := false } := by
            simp only [readFrameChecked]; rw [if_neg h1, if_pos h2]
          rw [e1, e2]
          refine ⟨⟨by simp, by simp⟩, one, fun r hr => ?_⟩
          cases hr
          exact ⟨fun hp => by simp at hp, fun _ => by simp⟩
        · by_cases h3 : findEof (writeBytes s.jpegMem s.jpegIndex (x.take BUFFER_SIZE))
              (s.jpegIndex + BUFFER_SIZE) (scanStart s.jpegIndex) ≠ 0
          · have e1 : readCursors s (x :: rest) = [s.jpegIndex] := by
              simp only [readCursors]; rw [if_neg h1, if_neg h2, if_pos h3]
            rw [e1]
            refine ⟨⟨by simp, by simp⟩, one, fun r hr => ?_⟩
            simp only [readFrameChecked] at hr
            rw [if_neg h1, if_neg h2, if_pos h3] at hr
            split at hr
            · cases hr
            · cases hr
              obtain ⟨g1, g2, _, _⟩ := findEof_pos h3
              refine ⟨fun _ => ?_, fun hp => ?_⟩
              · rw [extractFrame_jpegIndex]
                simp only [BUFFER_SIZE] at g1 g2 ⊢
                have hlb := scanStart_lookback s.jpegIndex
                omega
              · rw [extractFrame_produced] at hp
                simp at hp
          · have e1 : readCursors s (x :: rest) = s.jpegIndex :: readCursors
                { s with jpegMem := writeBytes s.jpegMem s.jpegIndex (x.take BUFFER_SIZE),
                         fd := some rest, jpegIndex := s.jpegIndex + BUFFER_SIZE } rest := by
              simp only [readCursors]; rw [if_neg h1, if_neg h2, if_neg h3]
            have e2 : readFrameChecked copyLimit objTail s buf (x :: rest)
                = readFrameChecked copyLimit objTail
                  { s with jpegMem := writeBytes s.jpegMem s.jpegIndex (x.take BUFFER_SIZE),
                           fd := some rest, jpegIndex := s.jpegIndex + BUFFER_SIZE } buf rest := by
              simp only [readFrameChecked]; rw [if_neg h1, if_neg h2, if_neg h3]
            obtain ⟨⟨a1, a2⟩, b, c⟩ := ih
              { s with jpegMem := writeBytes s.jpegMem s.jpegIndex (x.take BUFFER_SIZE),
                       fd := some rest, jpegIndex := s.jpegIndex + BUFFER_SIZE }
            rw [e1, e2]
            refine ⟨⟨by simp, by simp only [List.length_cons]; omega⟩, ?_, fun r hr => ?_⟩
            · intro i c hc
              cases i with
              | zero =>
                simp only [List.getElem?_cons_zero, Option.some.injEq] at hc
                omega
              | succ i =>
                simp only [List.getElem?_cons_succ] at hc
                have := b i c hc
                simp only [BUFFER_SIZE] at this
                omega
            · obtain ⟨c1, c2⟩ := c r hr
              refine ⟨c1, fun hp => ?_⟩
              have hc2 : r.src.jpegIndex = s.jpegIndex + BUFFER_SIZE + 256 * ((readCursors
                  { s with jpegMem := writeBytes s.jpegMem s.jpegIndex (x.take BUFFER_SIZE),
                           fd := some rest, jpegIndex := s.jpegIndex + BUFFER_SIZE }
                  rest).length - 1) := c2 hp
              simp only [BUFFER_SIZE, List.length_cons] at hc2 a1 ⊢
              omega
  obtain ⟨a, b, c⟩ := key fp s
  refine ⟨a, ?_, fun r hr => ?_⟩
  · intro i c hc
    have hb := b i c hc
    refine ⟨hb, by omega, fun hn => ?_⟩
    simp only [BUFFER_SIZE, SCAN_CAPACITY]
    omega
  · obtain ⟨c1, c2⟩ := c r hr
    refine ⟨c1, fun hp => ?_⟩
    have := c2 hp
    exact ⟨this, by omega⟩

/-- C5 at a concrete input: a call on a source with the cursor at 0 and a
stream of two chunks of zeros makes three reads, at the cursors 0, 256 and
512, each with the cursor plus 256 inside the scan buffer, and returns with
the cursor at 512. -/
theorem cursor_bounded_by_chunks_stored_witness :
    readySource.jpegIndex ≤ 264 + 256 * 0 ∧
    readCursors readySource [zeroChunk, zeroChunk] = [0, 256, 512] ∧
    (∀ i c, (readCursors readySource [zeroChunk, zeroChunk])[i]? = some c →
      c = readySource.jpegIndex + 256 * i ∧ c ≤ 264 + 256 * (0 + i) ∧
      (0 + i ≤ 8189 → c + BUFFER_SIZE ≤ SCAN_CAPACITY)) ∧
    (∀ r, readFrameChecked 4096 (fun _ => 0) readySource emptyBuffer [zeroChunk, zeroChunk]
        = Except.ok r →
      (r.produced = true → r.src.jpegIndex ≤ 264) ∧
      (r.produced = false →
        r.src.jpegIndex = readySource.jpegIndex
          + 256 * ((readCursors readySource [zeroChunk, zeroChunk]).length - 1) ∧
        r.src.jpegIndex
          ≤ 264 + 256 * (0 + ((readCursors readySource [zeroChunk, zeroChunk]).length - 1)))) :=
  ⟨by decide, by decide!,
    (cursor_bounded_by_chunks_stored 4096 (fun _ => 0) emptyBuffer [zeroChunk, zeroChunk]
      readySource 0 (by decide)).2⟩

/-! ## The bytes cut and the bytes stored: the calls -/

/-- What a call takes from the stream bounds what it leaves staged and what it
reports: the cursor it leaves plus 256 for each entry left in the stream is no
more than the cursor at entry plus 256 for each entry of the stream, and the
reported length of a frame is no more than the cursor at entry plus 256 for
each entry taken. -/
theorem readFrameLoop_potential (objTail : Mem) (buf : video_buffer) :
    ∀ (fp : FILE) (s : mjpeg_source),
      ∃ rest, (readFrameLoop objTail s buf fp).src.fd = some rest ∧
        rest.length ≤ fp.length ∧
        (readFrameLoop objTail s buf fp).src.jpegIndex + 256 * rest.length
          ≤ s.jpegIndex + 256 * fp.length ∧
        ((readFrameLoop objTail s buf fp).produced = true →
          (readFrameLoop objTail s buf fp).buf.bytesused
            ≤ s.jpegIndex + 256 * (fp.length - rest.length)) := by
  intro fp
  induction fp with
  | nil =>
    intro s
    exact ⟨[], rfl, le_refl _, le_refl _, fun h => by simp [readFrameLoop] at h⟩
  | cons x xs ih =>
    intro s
    simp only [readFrameLoop]
    by_cases hshort : x.length < BUFFER_SIZE
    · rw [if_pos hshort]
      exact ⟨xs, rfl, by simp, by simp only [List.length_cons]; omega,
        fun h => by simp at h⟩
    · rw [if_neg hshort]
      by_cases hf : findEof (writeBytes s.jpegMem s.jpegIndex (x.take BUFFER_SIZE))
          (s.jpegIndex + BUFFER_SIZE) (scanStart s.jpegIndex) ≠ 0
      · rw [if_pos hf]
        obtain ⟨g1, g2, _, _⟩ := findEof_pos hf
        refine ⟨xs, by rw [extractFrame_fd], by simp, ?_, fun _ => ?_⟩
        · rw [extractFrame_jpegIndex]
          simp only [List.length_cons]
          omega
        · rw [extractFrame_bytesused]
          simp only [BUFFER_SIZE, List.length_cons] at g2 ⊢
          omega
      · rw [if_neg hf]
        obtain ⟨rest, h1, h2, h3, h4⟩ := ih
          { s with jpegMem := writeBytes s.jpegMem s.jpegIndex (x.take BUFFER_SIZE),
                   fd := some xs, jpegIndex := s.jpegIndex + BUFFER_SIZE }
        refine ⟨rest, h1, by simp only [List.length_cons]; omega, ?_, fun hp => ?_⟩
        · simp only [BUFFER_SIZE, List.length_cons] at h3 ⊢
          omega
        · have := h4 hp
          simp only [BUFFER_SIZE, List.length_cons] at this ⊢
          omega

/-- A call returns when the stream it is given, stored whole after the staged
bytes, fits the scan buffer and what the copy of line 180 can move. -/
theorem readFrameChecked_of_potential (copyLimit : Nat) (objTail : Mem) (buf : video_buffer)
    (fp : FILE) (s : mjpeg_source)
    (hcap : s.jpegIndex + 256 * fp.length ≤ SCAN_CAPACITY)
    (hcopy : s.jpegIndex + 256 * fp.length ≤ copyLimit) :
    readFrameChecked copyLimit objTail s buf fp
      = Except.ok (readFrameLoop objTail s buf fp) := by
  obtain ⟨rest, h1, h2, _, h4⟩ := readFrameLoop_potential objTail buf fp s
  apply readFrameChecked_of_bounds copyLimit objTail buf fp s rest h1
  · have hC : SCAN_CAPACITY = 2097152 := rfl
    rw [hC] at hcap ⊢
    omega
  · intro hp
    have := h4 hp
    omega

theorem fillTrace_succ (copyLimit : Nat) (env : Env) (n : Nat) (s s1 : mjpeg_source)
    (buf : video_buffer) (fp : FILE) (r : ReadResult)
    (h1 : loopEntry env s = some (s1, fp))
    (h2 : mjpeg_source_fill_buffer_checked copyLimit env s buf = Except.ok r) :
    fillTrace copyLimit env (n + 1) s buf
      = (fillTrace copyLimit env n r.src r.buf).map (fun ls =>
          { cut := (readFrameTrace s1 fp).1, stored := (readFrameTrace s1 fp).2,
            result := r } :: ls) := by
  simp only [fillTrace, h1, h2]
  cases fillTrace copyLimit env n r.src r.buf <;> rfl

/-- The records of calls that return are those of a first call that returned
and of the calls after it. -/
theorem fillTrace_succ_some (copyLimit : Nat) (env : Env) (n : Nat) (s : mjpeg_source)
    (buf : video_buffer) (ls : List CallLog)
    (h : fillTrace copyLimit env (n + 1) s buf = some ls) :
    ∃ s1 fp r ls1, loopEntry env s = some (s1, fp) ∧
      mjpeg_source_fill_buffer_checked copyLimit env s buf = Except.ok r ∧
      fillTrace copyLimit env n r.src r.buf = some ls1 ∧
      ls = { cut := (readFrameTrace s1 fp).1, stored := (readFrameTrace s1 fp).2,
             result := r } :: ls1 := by
  cases h1 : loopEntry env s with
  | none => simp [fillTrace, h1] at h
  | some p =>
    obtain ⟨s1, fp⟩ := p
    cases h2 : mjpeg_source_fill_buffer_checked copyLimit env s buf with
    | error f => simp [fillTrace, h1, h2] at h
    | ok r =>
      rw [fillTrace_succ copyLimit env n s s1 buf fp r h1 h2] at h
      cases h3 : fillTrace copyLimit env n r.src r.buf with
      | none => rw [h3] at h; simp at h
      | some ls1 =>
        rw [h3] at h
        simp only [Option.map_some', Option.some.injEq] at h
        exact ⟨s1, fp, r, ls1, rfl, rfl, h3, h.symm⟩

/-- Calls that return, on a source whose stream is open: the slices cut,
followed by what is staged at the end, are what was staged at the start
followed by the chunks stored. -/
theorem fillTrace_open (copyLimit : Nat) (env : Env) :
    ∀ (n : Nat) (s : mjpeg_source) (buf : video_buffer) (ls : List CallLog),
      s.fd.isSome = true →
      fillTrace copyLimit env n s buf = some ls →
      ls.length = n ∧
        cutBytes ls ++ staged (finalSource s ls) = staged s ++ storedBytes ls ∧
        ∀ l ∈ ls, l.cut.isSome = l.result.produced ∧
          ∀ c, l.cut = some c → c.length = l.result.buf.bytesused := by
  intro n
  induction n with
  | zero =>
    intro s buf ls _ h
    simp only [fillTrace, Option.some.injEq] at h
    subst h
    exact ⟨rfl, by simp [cutBytes, storedBytes, finalSource], by simp⟩
  | succ n ih =>
    intro s buf ls hs h
    obtain ⟨fp, hfp⟩ := Option.isSome_iff_exists.1 hs
    obtain ⟨s1, fp1, r, ls1, e1, e2, e3, e4⟩ := fillTrace_succ_some copyLimit env n s buf ls h
    rw [loopEntry_open env s fp hfp] at e1
    simp only [Option.some.injEq, Prod.mk.injEq] at e1
    obtain ⟨es, ef⟩ := e1
    subst es
    subst ef
    rw [fill_buffer_checked_open copyLimit env s buf fp hfp] at e2
    have er := readFrameChecked_ok copyLimit env.objTail buf fp s r e2
    obtain ⟨a, b, c, d⟩ := readFrameTrace_account env.objTail buf fp s
    rw [← er] at a b c d
    obtain ⟨h2, h3, h4⟩ := ih r.src r.buf ls1 d e3
    subst e4
    refine ⟨by simp [h2], ?_, ?_⟩
    · show ((readFrameTrace s fp).1.getD [] ++ cutBytes ls1)
          ++ staged (finalSource r.src ls1)
        = staged s ++ ((readFrameTrace s fp).2 ++ storedBytes ls1)
      rw [List.append_assoc, h3, ← List.append_assoc, a, List.append_assoc]
    · intro l hl
      rcases List.mem_cons.1 hl with h | h
      · subst h
        exact ⟨b, c⟩
      · exact h4 l h

/-- Calls on a source whose stream is open return when the stream, stored whole
after the staged bytes, fits the scan buffer and what the copy of line 180 can
move. -/
theorem fillTrace_returns (copyLimit : Nat) (env : Env) :
    ∀ (n : Nat) (s : mjpeg_source) (buf : video_buffer) (fp : FILE),
      s.fd = some fp →
      s.jpegIndex + 256 * fp.length ≤ SCAN_CAPACITY →
      s.jpegIndex + 256 * fp.length ≤ copyLimit →
      ∃ ls, fillTrace copyLimit env n s buf = some ls := by
  intro n
  induction n with
  | zero => intro s buf fp _ _ _; exact ⟨[], rfl⟩
  | succ n ih =>
    intro s buf fp hfp hcap hcopy
    have hcall := readFrameChecked_of_potential copyLimit env.objTail buf fp s hcap hcopy
    obtain ⟨rest, h1, _, h3, _⟩ := readFrameLoop_potential env.objTail buf fp s
    obtain ⟨ls, hls⟩ := ih (readFrameLoop env.objTail s buf fp).src
      (readFrameLoop env.objTail s buf fp).buf rest h1 (by omega) (by omega)
    refine ⟨{ cut := (readFrameTrace s fp).1, stored := (readFrameTrace s fp).2,
              result := readFrameLoop env.objTail s buf fp } :: ls, ?_⟩
    rw [fillTrace_succ copyLimit env n s s buf fp _ (loopEntry_open env s fp hfp)
      (by rw [fill_buffer_checked_open copyLimit env s buf fp hfp]; exact hcall), hls]
    rfl

theorem fill_buffer_checked_first_error (copyLimit : Nat) (env : Env) (s : mjpeg_source)
    (buf : video_buffer) (fp : FILE) (f : Fault)
    (hs : s.fd = none) (hw : env.signalWritable = true) (hp : env.pipe = some fp)
    (hr : readFrameChecked copyLimit env.objTail
      { s with jpegBuffer := env.bufAddr, jpegMem := env.bufInit, start := env.startAddr,
               tmp := env.tmpAddr, fd := some fp } buf fp = Except.error f) :
    mjpeg_source_fill_buffer_checked copyLimit env s buf = Except.error f := by
  simp only [mjpeg_source_fill_buffer_checked, hs, setUp_ok env s fp hw hp, hr]

theorem readFrameChecked_miss (copyLimit : Nat) (objTail : Mem) (s : mjpeg_source)
    (buf : video_buffer) (r : List Nat) (rest : FILE) (h : r.length = 256)
    (hf : findEof (writeBytes s.jpegMem s.jpegIndex r) (s.jpegIndex + 256)
      (scanStart s.jpegIndex) = 0)
    (hcap : s.jpegIndex + 256 ≤ SCAN_CAPACITY) :
    readFrameChecked copyLimit objTail s buf (r :: rest)
      = readFrameChecked copyLimit objTail
          { s with jpegMem := writeBytes s.jpegMem s.jpegIndex r,
                   jpegIndex := s.jpegIndex + 256 } buf rest := by
  have ht : r.take 256 = r := by rw [← h]; exact List.take_length _
  simp only [readFrameChecked, BUFFER_SIZE]
  rw [ht, h, if_neg (by omega), if_neg (by omega), if_neg (by simp [hf])]
  exact readFrameChecked_fd copyLimit objTail buf rest
    { s with jpegMem := writeBytes s.jpegMem s.jpegIndex r, jpegIndex := s.jpegIndex + 256 }
    (some rest)

/-- A read whose bytes do not fit the scan buffer at the cursor ends the
call. -/
theorem readFrameChecked_past (copyLimit : Nat) (objTail : Mem) (s : mjpeg_source)
    (buf : video_buffer) (r : List Nat) (rest : FILE) (h : r.length = 256)
    (hcap : SCAN_CAPACITY < s.jpegIndex + 256) :
    readFrameChecked copyLimit objTail s buf (r :: rest)
      = Except.error Fault.storePastBuffer := by
  have ht : r.take 256 = r := by rw [← h]; exact List.take_length _
  simp only [readFrameChecked, BUFFER_SIZE]
  rw [ht, h, if_pos hcap]

/-- A call that has stored the full chunks pre inside the scan buffer without
producing a frame goes on with the rest of the stream from the state in which
these chunks are staged and the cursor has advanced past them. -/
theorem readFrameChecked_append_of_no_frame (copyLimit : Nat) (objTail : Mem)
    (buf : video_buffer) (tail : FILE) :
    ∀ (pre : FILE) (s : mjpeg_source),
      (∀ r ∈ pre, r.length = 256) →
      (readFrameLoop objTail s buf pre).produced = false →
      s.jpegIndex + 256 * pre.length ≤ SCAN_CAPACITY →
      readFrameChecked copyLimit objTail s buf (pre ++ tail)
        = readFrameChecked copyLimit objTail
            { s with jpegMem := writeBytes s.jpegMem s.jpegIndex pre.flatten,
                     jpegIndex := s.jpegIndex + 256 * pre.length } buf tail := by
  intro pre
  induction pre with
  | nil =>
    intro s _ _ _
    simp [writeBytes_nil]
  | cons r pre ih =>
    intro s hfull hp hcap
    have hr : r.length = 256 := hfull r (List.mem_cons_self _ _)
    rw [List.length_cons] at hcap
    by_cases hf : findEof (writeBytes s.jpegMem s.jpegIndex r) (s.jpegIndex + 256)
        (scanStart s.jpegIndex) = 0
    · rw [readFrameLoop_miss objTail s buf r _ hr hf] at hp
      rw [List.cons_append, readFrameChecked_miss copyLimit objTail s buf r _ hr hf (by omega),
        ih _ (fun r hr => hfull r (List.mem_cons_of_mem _ hr)) hp (by simp only; omega)]
      simp only [List.flatten_cons, List.length_cons]
      rw [← writeBytes_append, hr]
      congr 2
      omega
    · rw [readFrameLoop_found objTail s buf r _ hr hf, extractFrame_produced] at hp
      exact absurd hp (by simp)

/-- The first call on a source without a stream and with the cursor at 0, whose
pipe delivers full chunks without a terminator that fill the scan buffer and
then one more full chunk: the call stores that chunk past the buffer. -/
theorem first_call_stores_past (copyLimit : Nat) (env : Env) (s : mjpeg_source)
    (buf : video_buffer) (full : FILE) (z : List Nat) (rest : FILE)
    (hs : s.fd = none) (h0 : s.jpegIndex = 0)
    (hw : env.signalWritable = true) (hp : env.pipe = some (full ++ z :: rest))
    (hfull : ∀ r ∈ full, r.length = 256) (hz : z.length = 256)
    (hno : ∀ i, i < 256 * full.length → ¬ eoiAt (writeBytes env.bufInit 0 full.flatten) i)
    (hlen : 256 * full.length = SCAN_CAPACITY) :
    mjpeg_source_fill_buffer_checked copyLimit env s buf
      = Except.error Fault.storePastBuffer := by
  have hpre := readFrameLoop_all_miss env.objTail buf full
    { s with
      jpegBuffer := env.bufAddr, jpegMem := env.bufInit, start := env.startAddr,
      tmp := env.tmpAddr, fd := some (full ++ z :: rest) }
    hfull (fun i _ h2 => by
      simp only [h0] at h2 ⊢
      exact hno i (by omega))
  have happ := readFrameChecked_append_of_no_frame copyLimit env.objTail buf (z :: rest) full _
    hfull hpre (by simp only [h0]; omega)
  apply fill_buffer_checked_first_error copyLimit env s buf (full ++ z :: rest) _ hs hw hp
  rw [happ]
  exact readFrameChecked_past copyLimit env.objTail _ buf z rest hz (by simp only [h0]; omega)

/-- One call that faults leaves no record. -/
theorem fillTrace_fault (copyLimit : Nat) (env : Env) (n : Nat) (s : mjpeg_source)
    (buf : video_buffer) (f : Fault)
    (h : mjpeg_source_fill_buffer_checked copyLimit env s buf = Except.error f) :
    fillTrace copyLimit env (n + 1) s buf = none := by
  simp only [fillTrace, h]
  split <;> first | rfl | contradiction

/-- Calls that return, the first of them on a source without a stream and with
the cursor at 0: the slices cut, followed by what is staged at the end, are
the chunks stored. -/
theorem fillTrace_first_account (copyLimit : Nat) (env : Env) (n : Nat) (s : mjpeg_source)
    (buf : video_buffer) (fp : FILE) (hs : s.fd = none) (h0 : s.jpegIndex = 0)
    (hw : env.signalWritable = true) (hp : env.pipe = some fp)
    (ls : List CallLog) (h : fillTrace copyLimit env n s buf = some ls) :
    ls.length = n ∧
      cutBytes ls ++ staged (finalSource s ls) = storedBytes ls ∧
      ∀ l ∈ ls, l.cut.isSome = l.result.produced ∧
        ∀ c, l.cut = some c → c.length = l.result.buf.bytesused := by
  cases n with
  | zero =>
    simp only [fillTrace, Option.some.injEq] at h
    subst h
    exact ⟨rfl, by simp [cutBytes, storedBytes, finalSource, staged, memSlice, h0], by simp⟩
  | succ n =>
    obtain ⟨a, b, c, d⟩ := readFrameTrace_account env.objTail buf fp
      { s with jpegBuffer := env.bufAddr, jpegMem := env.bufInit, start := env.startAddr,
               tmp := env.tmpAddr, fd := some fp }
    have hst : ∀ (t : mjpeg_source), t.jpegIndex = 0 → staged t = [] := by
      intro t ht
      simp [staged, memSlice, ht]
    rw [hst { s with jpegBuffer := env.bufAddr, jpegMem := env.bufInit, start := env.startAddr,
                     tmp := env.tmpAddr, fd := some fp } h0, List.nil_append] at a
    obtain ⟨s1, fp1, r, ls1, e1, e2, e3, e4⟩ := fillTrace_succ_some copyLimit env n s buf ls h
    rw [loopEntry_first env s fp hs hw hp] at e1
    simp only [Option.some.injEq, Prod.mk.injEq] at e1
    obtain ⟨es, ef⟩ := e1
    subst es
    subst ef
    cases h1 : readFrameChecked copyLimit env.objTail
        { s with jpegBuffer := env.bufAddr, jpegMem := env.bufInit, start := env.startAddr,
                 tmp := env.tmpAddr, fd := some fp } buf fp with
    | error f =>
      rw [fill_buffer_checked_first_error copyLimit env s buf fp f hs hw hp h1] at e2
      cases e2
    | ok r0 =>
      rw [fill_buffer_checked_first copyLimit env s buf fp r0 hs hw hp h1] at e2
      have er0 := readFrameChecked_ok copyLimit env.objTail buf fp _ r0 h1
      have er : r = { r0 with out := [Msg.setUpLine] ++ r0.out } :=
        (Except.ok.inj e2).symm
      have hsrc : r.src = r0.src := by rw [er]
      have hbuf : r.buf = r0.buf := by rw [er]
      have hprod : r.produced = r0.produced := by rw [er]
      rw [← er0, ← hsrc] at a d
      rw [← er0, ← hprod] at b
      rw [← er0, ← hbuf] at c
      obtain ⟨h2, h3, h4⟩ := fillTrace_open copyLimit env n r.src r.buf ls1 d e3
      subst e4
      refine ⟨by simp [h2], ?_, ?_⟩
      · simp only [cutBytes, storedBytes, List.map_cons, List.flatten_cons, finalSource]
        simp only [cutBytes, storedBytes] at h3
        rw [List.append_assoc, h3, ← List.append_assoc, a]
      · intro l hl
        rcases List.mem_cons.1 hl with h | h
        · subst h
          exact ⟨b, c⟩
        · exact h4 l h

/-- Calls, the first of them on a source without a stream and with the cursor
at 0, return when the stream has no more entries than chunks fit the scan
buffer and than the copy of line 180 can move. -/
theorem fillTrace_first_returns (copyLimit : Nat) (env : Env) (n : Nat) (s : mjpeg_source)
    (buf : video_buffer) (fp : FILE) (hs : s.fd = none) (h0 : s.jpegIndex = 0)
    (hw : env.signalWritable = true) (hp : env.pipe = some fp)
    (hcap : 256 * fp.length ≤ SCAN_CAPACITY) (hcopy : 256 * fp.length ≤ copyLimit) :
    ∃ ls, fillTrace copyLimit env n s buf = some ls := by
  cases n with
  | zero => exact ⟨[], rfl⟩
  | succ n =>
    have h1 := readFrameChecked_of_potential copyLimit env.objTail buf fp
      { s with jpegBuffer := env.bufAddr, jpegMem := env.bufInit, start := env.startAddr,
               tmp := env.tmpAddr, fd := some fp }
      (by simp only [h0]; omega) (by simp only [h0]; omega)
    obtain ⟨rest, g1, _, g3, _⟩ := readFrameLoop_potential env.objTail buf fp
      { s with jpegBuffer := env.bufAddr, jpegMem := env.bufInit, start := env.startAddr,
               tmp := env.tmpAddr, fd := some fp }
    obtain ⟨r, hr, hsrc, hbuf⟩ : ∃ r,
        mjpeg_source_fill_buffer_checked copyLimit env s buf = Except.ok r ∧
        r.src = (readFrameLoop env.objTail
          { s with jpegBuffer := env.bufAddr, jpegMem := env.bufInit, start := env.startAddr,
                   tmp := env.tmpAddr, fd := some fp } buf fp).src ∧
        r.buf = (readFrameLoop env.objTail
          { s with jpegBuffer := env.bufAddr, jpegMem := env.bufInit, start := env.startAddr,
                   tmp := env.tmpAddr, fd := some fp } buf fp).buf :=
      ⟨_, fill_buffer_checked_first copyLimit env s buf fp _ hs hw hp h1, rfl, rfl⟩
    rw [← hsrc] at g1 g3
    simp only [h0] at g3
    obtain ⟨ls, hls⟩ := fillTrace_returns copyLimit env n r.src r.buf rest g1
      (by omega) (by omega)
    refine ⟨{ cut := (readFrameTrace
                { s with jpegBuffer := env.bufAddr, jpegMem := env.bufInit,
                         start := env.startAddr, tmp := env.tmpAddr, fd := some fp } fp).1,
              stored := (readFrameTrace
                { s with jpegBuffer := env.bufAddr, jpegMem := env.bufInit,
                         start := env.startAddr, tmp := env.tmpAddr, fd := some fp } fp).2,
              result := r } :: ls, ?_⟩
    rw [fillTrace_succ copyLimit env n s _ buf fp r (loopEntry_first env s fp hs hw hp) hr, hls]
    rfl

/-- C15 as stated fails: on a fresh source whose pipe delivers 8193 chunks of
zeros, the first call stores 8192 of them, which fill the 2 MiB of the scan
buffer, and then stores the next chunk past the end of the buffer, whatever
the copy of line 180 can move: the call does not return, and there is no
state after it in which the bytes could be accounted for. -/
theorem chunk_stored_past_the_buffer :
    channelPastBuffer.length = 8193 ∧
    (∀ r ∈ channelPastBuffer, r = zeroChunk) ∧
    256 * 8192 = SCAN_CAPACITY ∧
    ∀ copyLimit,
      mjpeg_source_fill_buffer_checked copyLimit (envWith channelPastBuffer) freshSource
          emptyBuffer = Except.error Fault.storePastBuffer ∧
      fillTrace copyLimit (envWith channelPastBuffer) 1 freshSource emptyBuffer = none := by
  have hfull : ∀ r ∈ List.replicate 8192 zeroChunk, r.length = 256 := by
    intro r hr
    rw [List.eq_of_mem_replicate hr]
    decide!
  have hcall : ∀ copyLimit,
      mjpeg_source_fill_buffer_checked copyLimit (envWith channelPastBuffer) freshSource
        emptyBuffer = Except.error Fault.storePastBuffer := fun copyLimit =>
    first_call_stores_past copyLimit (envWith channelPastBuffer) freshSource emptyBuffer
      (List.replicate 8192 zeroChunk) zeroChunk [] rfl rfl rfl rfl hfull (by decide!)
      (fun i hi => zeroStream_no_eoi 8192 _ i (by rw [List.length_replicate] at hi; exact hi))
      (by rw [List.length_replicate]; decide)
  refine ⟨?_, ?_, by decide, fun copyLimit =>
    ⟨hcall copyLimit, fillTrace_fault copyLimit _ 0 _ _ _ (hcall copyLimit)⟩⟩
  · unfold channelPastBuffer
    rw [List.length_append, List.length_replicate]
    rfl
  · intro r hr
    unfold channelPastBuffer at hr
    rcases List.mem_append.1 hr with h | h
    · exact List.eq_of_mem_replicate h
    · exact List.mem_singleton.1 h

/-- C15, as the code behaves: no byte is lost, duplicated or reordered in
calls that return. For every stream and every number n of calls of
mjpeg_source_fill_buffer on a fresh source, whenever the n calls return (no
chunk is stored past the scan buffer and no copy of line 180 moves more than
it can), the scan-buffer slices cut at the extractions, in order, followed by
the bytes staged after the last call, are the chunks of 256 bytes stored so
far, in order; a slice is cut exactly in the calls that produce a frame, and
its length is the reported length. The n calls do return when the stream has
no more entries than chunks fit the scan buffer and than the copy of line 180
can move. -/
theorem no_byte_lost (copyLimit : Nat) (env : Env) (n : Nat) (p1 p2 : String)
    (buf : video_buffer) (fp : FILE)
    (hw : env.signalWritable = true) (hp : env.pipe = some fp) :
    (∀ ls, fillTrace copyLimit env n (mjpeg_video_source_create p1 p2) buf = some ls →
      ls.length = n ∧
      cutBytes ls ++ staged (finalSource (mjpeg_video_source_create p1 p2) ls)
        = storedBytes ls ∧
      ∀ l ∈ ls, l.cut.isSome = l.result.produced ∧
        ∀ c, l.cut = some c → c.length = l.result.buf.bytesused) ∧
    (256 * fp.length ≤ SCAN_CAPACITY → 256 * fp.length ≤ copyLimit →
      ∃ ls, fillTrace copyLimit env n (mjpeg_video_source_create p1 p2) buf = some ls) :=
  ⟨fun ls h => fillTrace_first_account copyLimit env n (mjpeg_video_source_create p1 p2) buf fp
      rfl rfl hw hp ls h,
    fun hcap hcopy => fillTrace_first_returns copyLimit env n (mjpeg_video_source_create p1 p2)
      buf fp rfl rfl hw hp hcap hcopy⟩

/-- C15 at a concrete input: three calls on the fresh source with the stream
of the three short frames, when the copy of line 180 can move 4096 bytes. -/
theorem no_byte_lost_witness :
    ∃ ls, fillTrace 4096 (envWith channel512) 3
        (mjpeg_video_source_create "/tmp/mjpeg" "/tmp/mjpeg.signal") emptyBuffer = some ls ∧
      ls.length = 3 ∧
      cutBytes ls
          ++ staged (finalSource (mjpeg_video_source_create "/tmp/mjpeg" "/tmp/mjpeg.signal") ls)
        = storedBytes ls ∧
      ∀ l ∈ ls, l.cut.isSome = l.result.produced ∧
        ∀ c, l.cut = some c → c.length = l.result.buf.bytesused :=
  Exists.elim
    ((no_byte_lost 4096 (envWith channel512) 3 "/tmp/mjpeg" "/tmp/mjpeg.signal" emptyBuffer
      channel512 rfl rfl).2 (by decide) (by decide))
    (fun ls hls => ⟨ls, hls,
      (no_byte_lost 4096 (envWith channel512) 3 "/tmp/mjpeg" "/tmp/mjpeg.signal" emptyBuffer
        channel512 rfl rfl).1 ls hls⟩)

end UvcGadget
